import Mathlib

/-!
Shallow embedding of the drift reconciliation engine of the `osc` repository
(package `internal/drift` plus the `drift check` command's report filter),
with theorems checking the natural-language specification against it.

Modelling conventions, applied uniformly:
* Go string enums (`ResourceType`, `DriftStatus`) stay strings.
* Go maps are association lists with last-write-wins insertion.  Go map
  iteration order is unspecified, so the embedding iterates in first-insertion
  order and the theorems below state only order-insensitive facts
  (membership and counts).
* Go `int` is `Int` (no arithmetic here can overflow a 64-bit int at the
  modelled inputs); JSON numbers (Go `float64`) are modelled at their integer
  points, the only values the embedded code inspects.
* Go exported field names are lowercased to Lean's field-name convention.
* `nil` slices and empty slices are both the empty list, matching Go's
  observable behaviour in this code (only length and element tests occur).
-/

namespace Osc

/-- Go `ResourceType` (string enum), from internal/drift/types.go. -/
abbrev ResourceType := String

def ResourceTypeServer : ResourceType := "server"

def ResourceTypeSecurityGroup : ResourceType := "security-group"

def ResourceTypeSecurityGroupRule : ResourceType := "security-group-rule"

/-- Go `DriftStatus` (string enum), from internal/drift/types.go. -/
abbrev DriftStatus := String

def StatusMissingInTruth : DriftStatus := "missing_in_truth"

def StatusMissingInState : DriftStatus := "missing_in_state"

def StatusNameChanged : DriftStatus := "name_changed"

def StatusSecGroupChanged : DriftStatus := "secgroups_changed"

def StatusRuleChanged : DriftStatus := "rule_changed"

/-- A decoded JSON value as the Go code sees one inside a `map[string]any`.
`other` stands for any value that is neither a string nor a number; the
extractors treat all such values uniformly (type assertions fail on them). -/
inductive GoValue where
  | str : String → GoValue
  | num : Int → GoValue
  | other : GoValue
deriving DecidableEq, Repr

/-- Go struct `Resource` (internal/drift/types.go).  `Properties`
(`map[string]any`) is an association list with distinct keys. -/
structure Resource where
  id : String
  name : String
  type : ResourceType
  projectName : String
  parentID : String := ""
  parentName : String := ""
  securityGroups : List String := []
  properties : List (String × GoValue) := []
deriving DecidableEq, Repr

/-- Go struct `DiffResult` (internal/drift/types.go). -/
structure DiffResult where
  resourceType : ResourceType
  resourceName : String
  resourceID : String
  projectName : String
  parentSG : String := ""
  status : DriftStatus
  details : String
deriving DecidableEq, Repr

/-- Go struct `ResourceCounts` (internal/drift/types.go). -/
structure ResourceCounts where
  servers : Nat := 0
  securityGroups : Nat := 0
  securityGroupRules : Nat := 0
deriving DecidableEq, Repr

/-- Go struct `ProjectDrift` (internal/drift/types.go). -/
structure ProjectDrift where
  projectName : String
  drifts : List DiffResult
  stateCount : ResourceCounts := {}
  truthCount : ResourceCounts := {}
deriving DecidableEq, Repr

/-- Go struct `DriftSummary` (internal/drift/types.go); the two Go count maps
are association lists bumped in place. -/
structure DriftSummary where
  totalProjects : Nat
  totalDrift : Nat
  byStatus : List (DriftStatus × Nat)
  byType : List (ResourceType × Nat)
deriving DecidableEq, Repr

/-- Go struct `DriftReport` (internal/drift/types.go). -/
structure DriftReport where
  projects : List ProjectDrift
  summary : DriftSummary
deriving DecidableEq, Repr

/-- Increment of a Go `map[...]int` entry (`m[k]++`): last-write-wins
association list bump, appending a fresh key with count 1. -/
def bumpCount : List (String × Nat) → String → List (String × Nat)
  | [], k => [(k, 1)]
  | p :: rest, k => if p.1 = k then (p.1, p.2 + 1) :: rest else p :: bumpCount rest k

/-- Go `NewDriftReport` (internal/drift/types.go). -/
def NewDriftReport : DriftReport :=
  { projects := []
    summary := { totalProjects := 0, totalDrift := 0, byStatus := [], byType := [] } }

/-- Go method `(*DriftReport).AddProject` (internal/drift/types.go), as a
functional state update. -/
def AddProject (r : DriftReport) (project : ProjectDrift) : DriftReport :=
  { projects := r.projects ++ [project]
    summary :=
      { totalProjects := r.summary.totalProjects + 1
        totalDrift := r.summary.totalDrift + project.drifts.length
        byStatus := project.drifts.foldl (fun m d => bumpCount m d.status) r.summary.byStatus
        byType := project.drifts.foldl (fun m d => bumpCount m d.resourceType) r.summary.byType } }

/-- Go method `(*DriftReport).HasDrift` (internal/drift/types.go). -/
def HasDrift (r : DriftReport) : Bool :=
  r.summary.totalDrift > 0

theorem totalDrift_foldl_addProject (ps : List ProjectDrift) (r : DriftReport) :
    (ps.foldl AddProject r).summary.totalDrift
      = r.summary.totalDrift + (ps.map (fun p => p.drifts.length)).sum := by
  induction ps generalizing r with
  | nil => simp
  | cons p ps ih =>
    simp [List.foldl_cons, ih, AddProject]
    omega

/-- C1: a `DriftReport` built from `NewDriftReport` by any sequence of
`AddProject` calls has `HasDrift = true` iff the sum of the lengths of the
`Drifts` lists of all added projects is greater than zero. -/
theorem hasDrift_iff_total_drift_positive (ps : List ProjectDrift) :
    HasDrift (List.foldl AddProject NewDriftReport ps) = true ↔
      0 < (ps.map (fun p => p.drifts.length)).sum := by
  simp [HasDrift, totalDrift_foldl_addProject, NewDriftReport]

/-! ### Comparison engine (internal/drift/compare.go) -/

/-- One Go map assignment `m[k] = v`: replace the entry for `k` if present,
else append it.  Keys stay distinct; entry order is first-insertion order
(Go's iteration order is unspecified — see the file comment). -/
def insertAssoc : List (String × Resource) → String → Resource → List (String × Resource)
  | [], k, v => [(k, v)]
  | p :: rest, k, v => if p.1 = k then (k, v) :: rest else p :: insertAssoc rest k v

/-- The `stateByID` / `truthByID` map-building loops in
`compareResourcesByType`: `m[res.ID] = res` for each resource in order
(duplicate IDs: last write wins). -/
def buildByID (resources : List Resource) : List (String × Resource) :=
  resources.foldl (fun m res => insertAssoc m res.id res) []

/-- Go `getParentSG` (compare.go). -/
def getParentSG (res : Resource) : String :=
  if res.parentName ≠ "" then res.parentName else res.parentID

/-- The dedup loop of Go `normalizeSecurityGroups`: keep the first occurrence
of each name (`seen` models the Go `map[string]bool`). -/
def dedupKeepFirst (seen : List String) : List String → List String
  | [] => []
  | sg :: rest =>
    if seen.contains sg then dedupKeepFirst seen rest
    else sg :: dedupKeepFirst (sg :: seen) rest

/-- Go `sort.Strings`: ascending lexicographic sort (insertion sort computes
the same ascending reordering). -/
def sortStrings (l : List String) : List String :=
  List.insertionSort (· ≤ ·) l

/-- Go `normalizeSecurityGroups` (compare.go): dedup then sort; empty input
returns nil. -/
def normalizeSecurityGroups (sgs : List String) : List String :=
  if sgs.isEmpty then [] else sortStrings (dedupKeepFirst [] sgs)

/-- Go `stringSlicesEqual` (compare.go): length check plus pointwise
comparison, i.e. list equality. -/
def stringSlicesEqual (a b : List String) : Bool :=
  a == b

/-- Go `diffStringSlices` (compare.go): `added` = elements of `truth` not in
`state`, `removed` = elements of `state` not in `truth` (set membership via
the two Go set maps = list membership). -/
def diffStringSlices (state truth : List String) : List String × List String :=
  (truth.filter (fun s => ¬ state.contains s),
   state.filter (fun s => ¬ truth.contains s))

/-- Go `fmt.Sprintf("%v", slice)` on a `[]string`: bracketed,
space-separated. -/
def goFmtStrSlice (l : List String) : String :=
  "[" ++ String.intercalate " " l ++ "]"

/-- Go `fmt.Sprintf("%q", s)`: the string in double quotes.  Escaping of
special characters inside `s` is not modelled; no theorem below depends on
the quoted text. -/
def goQuote (s : String) : String :=
  "\"" ++ s ++ "\""

/-- Go `compareServerProperties` (compare.go).  The Go code accumulates a
`changes` slice; the two appends are modelled as the two (possibly empty)
sub-lists concatenated in program order. -/
def compareServerProperties (stateRes truthRes : Resource) : DriftStatus × String :=
  let nameChanges : List String :=
    if stateRes.name ≠ truthRes.name then
      ["name: " ++ goQuote stateRes.name ++ " -> " ++ goQuote truthRes.name]
    else []
  let stateSGs := normalizeSecurityGroups stateRes.securityGroups
  let truthSGs := normalizeSecurityGroups truthRes.securityGroups
  let sgChanges : List String :=
    if ¬ stringSlicesEqual stateSGs truthSGs then
      let added := (diffStringSlices stateSGs truthSGs).1
      let removed := (diffStringSlices stateSGs truthSGs).2
      if added.length > 0 ∨ removed.length > 0 then
        let parts : List String :=
          (if added.length > 0 then ["added: " ++ goFmtStrSlice added] else [])
            ++ (if removed.length > 0 then ["removed: " ++ goFmtStrSlice removed] else [])
        ["security_groups: " ++ String.intercalate ", " parts]
      else []
    else []
  let changes := nameChanges ++ sgChanges
  if changes.length = 0 then ("", "")
  else if stateRes.name ≠ truthRes.name then
    (StatusNameChanged, String.intercalate "; " changes)
  else
    (StatusSecGroupChanged, String.intercalate "; " changes)

/-- Go `compareSecurityGroupProperties` (compare.go). -/
def compareSecurityGroupProperties (stateRes truthRes : Resource) : DriftStatus × String :=
  if stateRes.name ≠ truthRes.name then
    (StatusNameChanged, "name: " ++ goQuote stateRes.name ++ " -> " ++ goQuote truthRes.name)
  else ("", "")

/-- Go `compareSecurityGroupRuleProperties` (compare.go): rules are matched by
ID only, no property comparison. -/
def compareSecurityGroupRuleProperties (_stateRes _truthRes : Resource) : DriftStatus × String :=
  ("", "")

/-- First loop of Go `compareResourcesByType` (compare.go): resources in
state but not in truth. -/
def missingInTruthResults (stateByID truthByID : List (String × Resource)) : List DiffResult :=
  stateByID.filterMap fun p =>
    if (truthByID.lookup p.1).isSome then none
    else some
      { resourceType := p.2.type
        resourceName := p.2.name
        resourceID := p.2.id
        projectName := p.2.projectName
        parentSG := getParentSG p.2
        status := StatusMissingInTruth
        details := "Resource exists in Terraform state but not in OpenStack" }

/-- Second loop of Go `compareResourcesByType` (compare.go): resources in
truth but not in state. -/
def missingInStateResults (stateByID truthByID : List (String × Resource)) : List DiffResult :=
  truthByID.filterMap fun p =>
    if (stateByID.lookup p.1).isSome then none
    else some
      { resourceType := p.2.type
        resourceName := p.2.name
        resourceID := p.2.id
        projectName := p.2.projectName
        parentSG := getParentSG p.2
        status := StatusMissingInState
        details := "Resource exists in OpenStack but not in Terraform state" }

/-- Third loop of Go `compareResourcesByType` (compare.go): matched IDs run
through the kind-specific property comparator, kept when it reports a
status. -/
def changedResults (stateByID truthByID : List (String × Resource))
    (propComparer : Resource → Resource → DriftStatus × String) : List DiffResult :=
  stateByID.filterMap fun p =>
    match truthByID.lookup p.1 with
    | none => none
    | some truthRes =>
      if (propComparer p.2 truthRes).1 = "" then none
      else some
        { resourceType := p.2.type
          resourceName := p.2.name
          resourceID := p.2.id
          projectName := p.2.projectName
          parentSG := getParentSG p.2
          status := (propComparer p.2 truthRes).1
          details := (propComparer p.2 truthRes).2 }

/-- Go `compareResourcesByType` (compare.go): the three passes over the two
ID-keyed maps, in program order (missing-in-truth, missing-in-state,
changed). -/
def compareResourcesByType (stateResources truthResources : List Resource)
    (propComparer : Resource → Resource → DriftStatus × String) : List DiffResult :=
  missingInTruthResults (buildByID stateResources) (buildByID truthResources)
    ++ missingInStateResults (buildByID stateResources) (buildByID truthResources)
    ++ changedResults (buildByID stateResources) (buildByID truthResources) propComparer

theorem lookup_insertAssoc (m : List (String × Resource)) (k : String) (v : Resource)
    (q : String) :
    (insertAssoc m k v).lookup q = if q = k then some v else m.lookup q := by
  induction m with
  | nil =>
    by_cases hq : q = k
    · simp [insertAssoc, List.lookup_cons, hq]
    · have hne : (q == k) = false := by simpa [beq_iff_eq] using hq
      simp [insertAssoc, List.lookup_cons, hne, hq]
  | cons p rest ih =>
    obtain ⟨a, b⟩ := p
    simp only [insertAssoc]
    by_cases hak : a = k
    · subst hak
      by_cases hq : q = a
      · simp [List.lookup_cons, hq]
      · have hne : (q == a) = false := by simpa [beq_iff_eq] using hq
        simp [List.lookup_cons, hne, hq]
    · simp only [if_neg hak]
      by_cases hq : q = a
      · subst hq
        have hqk : ¬ q = k := hak
        simp [List.lookup_cons, hqk]
      · have hne : (q == a) = false := by simpa [beq_iff_eq] using hq
        simp [List.lookup_cons, hne, hq, ih]

theorem mem_insertAssoc (m : List (String × Resource)) (k : String) (v : Resource)
    (p : String × Resource) (hp : p ∈ insertAssoc m k v) : p ∈ m ∨ p = (k, v) := by
  induction m with
  | nil => simp_all [insertAssoc]
  | cons q rest ih =>
    simp only [insertAssoc] at hp
    split at hp
    · rcases List.mem_cons.mp hp with h | h
      · exact Or.inr h
      · exact Or.inl (List.mem_cons_of_mem _ h)
    · rcases List.mem_cons.mp hp with h | h
      · exact Or.inl (h ▸ List.mem_cons_self _ _)
      · rcases ih h with h2 | h2
        · exact Or.inl (List.mem_cons_of_mem _ h2)
        · exact Or.inr h2

theorem map_fst_insertAssoc (m : List (String × Resource)) (k : String) (v : Resource) :
    (insertAssoc m k v).map Prod.fst
      = if k ∈ m.map Prod.fst then m.map Prod.fst else m.map Prod.fst ++ [k] := by
  induction m with
  | nil => simp [insertAssoc]
  | cons p rest ih =>
    simp only [insertAssoc]
    by_cases hpk : p.1 = k
    · simp [hpk]
    · have hk : (k ∈ p.1 :: rest.map Prod.fst) ↔ k ∈ rest.map Prod.fst := by
        simp [List.mem_cons]
        intro h
        exact absurd h.symm hpk
      simp only [if_neg hpk, List.map_cons, ih]
      by_cases hmem : k ∈ rest.map Prod.fst
      · simp [hmem, hk.mpr hmem]
      · have : ¬ k ∈ p.1 :: rest.map Prod.fst := fun h => hmem (hk.mp h)
        simp [hmem, this]

theorem mem_map_fst_insertAssoc (m : List (String × Resource)) (k : String) (v : Resource)
    (q : String) :
    q ∈ (insertAssoc m k v).map Prod.fst ↔ q ∈ m.map Prod.fst ∨ q = k := by
  rw [map_fst_insertAssoc]
  split
  · constructor
    · exact fun h => Or.inl h
    · rintro (h | rfl)
      · exact h
      · assumption
  · simp [List.mem_append]

theorem nodup_map_fst_insertAssoc (m : List (String × Resource)) (k : String) (v : Resource)
    (hm : (m.map Prod.fst).Nodup) : ((insertAssoc m k v).map Prod.fst).Nodup := by
  rw [map_fst_insertAssoc]
  split
  · exact hm
  · next h => simp [List.nodup_append, hm, h]

theorem mem_foldl_insertAssoc (rs : List Resource) (m : List (String × Resource))
    (p : String × Resource)
    (hp : p ∈ rs.foldl (fun m res => insertAssoc m res.id res) m) :
    p ∈ m ∨ (p.2.id = p.1 ∧ p.2 ∈ rs) := by
  induction rs generalizing m with
  | nil => exact Or.inl hp
  | cons r rest ih =>
    simp only [List.foldl_cons] at hp
    rcases ih _ hp with h | h
    · rcases mem_insertAssoc _ _ _ _ h with h2 | h2
      · exact Or.inl h2
      · exact Or.inr ⟨by simp [h2], by simp [h2]⟩
    · exact Or.inr ⟨h.1, List.mem_cons_of_mem _ h.2⟩

theorem mem_buildByID (rs : List Resource) (p : String × Resource)
    (hp : p ∈ buildByID rs) : p.2.id = p.1 ∧ p.2 ∈ rs := by
  rcases mem_foldl_insertAssoc rs [] p hp with h | h
  · simp at h
  · exact h

theorem mem_keys_foldl_insertAssoc (rs : List Resource) (m : List (String × Resource))
    (q : String) :
    q ∈ (rs.foldl (fun m res => insertAssoc m res.id res) m).map Prod.fst
      ↔ q ∈ m.map Prod.fst ∨ q ∈ rs.map Resource.id := by
  induction rs generalizing m with
  | nil => simp
  | cons r rest ih =>
    simp only [List.foldl_cons, ih, mem_map_fst_insertAssoc, List.map_cons, List.mem_cons]
    tauto

theorem mem_keys_buildByID (rs : List Resource) (q : String) :
    q ∈ (buildByID rs).map Prod.fst ↔ q ∈ rs.map Resource.id := by
  rw [buildByID, mem_keys_foldl_insertAssoc]
  simp

theorem nodup_keys_foldl_insertAssoc (rs : List Resource) (m : List (String × Resource))
    (hm : (m.map Prod.fst).Nodup) :
    ((rs.foldl (fun m res => insertAssoc m res.id res) m).map Prod.fst).Nodup := by
  induction rs generalizing m with
  | nil => exact hm
  | cons r rest ih => exact ih _ (nodup_map_fst_insertAssoc _ _ _ hm)

theorem nodup_keys_buildByID (rs : List Resource) :
    ((buildByID rs).map Prod.fst).Nodup :=
  nodup_keys_foldl_insertAssoc rs [] (by simp)

theorem lookup_isSome_iff_mem_keys (l : List (String × Resource)) (k : String) :
    (l.lookup k).isSome ↔ k ∈ l.map Prod.fst := by
  induction l with
  | nil => simp
  | cons p rest ih =>
    obtain ⟨a, b⟩ := p
    by_cases h : k = a
    · simp [List.lookup_cons, h]
    · have hne : (k == a) = false := by simpa [beq_iff_eq] using h
      simp [List.lookup_cons, hne, h, ih]

theorem mem_of_lookup_eq_some (l : List (String × Resource)) (k : String) (v : Resource)
    (h : l.lookup k = some v) : (k, v) ∈ l := by
  induction l with
  | nil => simp at h
  | cons p rest ih =>
    obtain ⟨a, b⟩ := p
    by_cases hk : k = a
    · subst hk
      simp only [List.lookup_cons, beq_self_eq_true, Option.some.injEq] at h
      rw [← h]
      exact List.mem_cons_self _ _
    · have hne : (k == a) = false := by simp [beq_iff_eq, hk]
      simp only [List.lookup_cons, hne] at h
      exact List.mem_cons_of_mem _ (ih h)

theorem lookup_eq_some_of_mem_of_nodup (l : List (String × Resource)) (k : String)
    (v : Resource) (hnd : (l.map Prod.fst).Nodup) (hmem : (k, v) ∈ l) :
    l.lookup k = some v := by
  induction l with
  | nil => simp at hmem
  | cons p rest ih =>
    obtain ⟨a, b⟩ := p
    simp only [List.map_cons, List.nodup_cons] at hnd
    rcases List.mem_cons.mp hmem with h | h
    · have ha : k = a := by cases h; rfl
      subst ha
      have hb : b = v := by cases h; rfl
      simp [List.lookup_cons, hb]
    · have hk : ¬ k = a := by
        intro hc
        subst hc
        exact hnd.1 (List.mem_map.mpr ⟨(k, v), h, rfl⟩)
      have hne : (k == a) = false := by simp [beq_iff_eq, hk]
      simp only [List.lookup_cons, hne]
      exact ih hnd.2 h

theorem countP_key_eq_ite (l : List (String × Resource)) (id : String)
    (hnd : (l.map Prod.fst).Nodup) :
    l.countP (fun p => p.1 == id) = if id ∈ l.map Prod.fst then 1 else 0 := by
  have h1 : l.countP (fun p => p.1 == id) = (l.map Prod.fst).count id := by
    rw [List.count_eq_countP, List.countP_map]
    rfl
  rw [h1]
  split
  · next h => exact List.count_eq_one_of_mem hnd h
  · next h => exact List.count_eq_zero.mpr h

theorem countP_id_missingInTruthResults (sm tm : List (String × Resource)) (id : String)
    (hWF : ∀ p ∈ sm, p.2.id = p.1) (hnd : (sm.map Prod.fst).Nodup) :
    (missingInTruthResults sm tm).countP (fun d => d.resourceID == id)
      = if id ∈ sm.map Prod.fst ∧ tm.lookup id = none then 1 else 0 := by
  rw [missingInTruthResults, List.countP_filterMap]
  have hcongr : ∀ p ∈ sm,
      ((fun p =>
        (((if (tm.lookup p.1).isSome then none
           else some
            { resourceType := p.2.type, resourceName := p.2.name, resourceID := p.2.id,
              projectName := p.2.projectName, parentSG := getParentSG p.2,
              status := StatusMissingInTruth,
              details := "Resource exists in Terraform state but not in OpenStack"
              : DiffResult }).map (fun d => d.resourceID == id)).getD false)) p
        ↔ (fun p => p.1 == id && (tm.lookup p.1).isNone) p) := by
    intro p hp
    cases h : tm.lookup p.1 with
    | none => simp [h, hWF p hp]
    | some tr => simp [h]
  rw [List.countP_congr hcongr]
  by_cases hlk : tm.lookup id = none
  · have : ∀ p ∈ sm, (p.1 == id && (tm.lookup p.1).isNone) = (p.1 == id) := by
      intro p hp
      by_cases hp1 : p.1 = id
      · simp [hp1, hlk]
      · simp [beq_iff_eq, hp1]
    rw [List.countP_congr (fun p hp => by rw [this p hp])]
    rw [countP_key_eq_ite sm id hnd]
    by_cases hmem : id ∈ sm.map Prod.fst <;> simp [hmem, hlk]
  · have : ∀ p ∈ sm, ¬ (p.1 == id && (tm.lookup p.1).isNone) = true := by
      intro p hp
      by_cases hp1 : p.1 = id
      · simp [hp1, Option.isNone_iff_eq_none, hlk]
      · simp [beq_iff_eq, hp1]
    rw [List.countP_eq_zero.mpr this]
    simp [hlk]

theorem countP_id_missingInStateResults (sm tm : List (String × Resource)) (id : String)
    (hWF : ∀ p ∈ tm, p.2.id = p.1) (hnd : (tm.map Prod.fst).Nodup) :
    (missingInStateResults sm tm).countP (fun d => d.resourceID == id)
      = if id ∈ tm.map Prod.fst ∧ sm.lookup id = none then 1 else 0 := by
  rw [missingInStateResults, List.countP_filterMap]
  have hcongr : ∀ p ∈ tm,
      ((fun p =>
        (((if (sm.lookup p.1).isSome then none
           else some
            { resourceType := p.2.type, resourceName := p.2.name, resourceID := p.2.id,
              projectName := p.2.projectName, parentSG := getParentSG p.2,
              status := StatusMissingInState,
              details := "Resource exists in OpenStack but not in Terraform state"
              : DiffResult }).map (fun d => d.resourceID == id)).getD false)) p
        ↔ (fun p => p.1 == id && (sm.lookup p.1).isNone) p) := by
    intro p hp
    cases h : sm.lookup p.1 with
    | none => simp [h, hWF p hp]
    | some tr => simp [h]
  rw [List.countP_congr hcongr]
  by_cases hlk : sm.lookup id = none
  · have : ∀ p ∈ tm, (p.1 == id && (sm.lookup p.1).isNone) = (p.1 == id) := by
      intro p hp
      by_cases hp1 : p.1 = id
      · simp [hp1, hlk]
      · simp [beq_iff_eq, hp1]
    rw [List.countP_congr (fun p hp => by rw [this p hp])]
    rw [countP_key_eq_ite tm id hnd]
    by_cases hmem : id ∈ tm.map Prod.fst <;> simp [hmem, hlk]
  · have : ∀ p ∈ tm, ¬ (p.1 == id && (sm.lookup p.1).isNone) = true := by
      intro p hp
      by_cases hp1 : p.1 = id
      · simp [hp1, Option.isNone_iff_eq_none, hlk]
      · simp [beq_iff_eq, hp1]
    rw [List.countP_eq_zero.mpr this]
    simp [hlk]

theorem countP_id_changedResults_state_none (sm tm : List (String × Resource))
    (f : Resource → Resource → DriftStatus × String) (id : String)
    (hWF : ∀ p ∈ sm, p.2.id = p.1) (h : sm.lookup id = none) :
    (changedResults sm tm f).countP (fun d => d.resourceID == id) = 0 := by
  rw [changedResults, List.countP_filterMap]
  apply List.countP_eq_zero.mpr
  intro p hp
  have hne : p.1 ≠ id := by
    intro hc
    have hsome : (sm.lookup p.1).isSome :=
      (lookup_isSome_iff_mem_keys sm p.1).mpr (List.mem_map.mpr ⟨p, hp, rfl⟩)
    rw [hc, h] at hsome
    simp at hsome
  cases htm : tm.lookup p.1 with
  | none => simp [htm]
  | some tr =>
    by_cases hf : (f p.2 tr).1 = ""
    · simp [htm, hf]
    · simp [htm, hf, hWF p hp, beq_iff_eq, hne]

theorem countP_id_changedResults_truth_none (sm tm : List (String × Resource))
    (f : Resource → Resource → DriftStatus × String) (id : String)
    (hWF : ∀ p ∈ sm, p.2.id = p.1) (h : tm.lookup id = none) :
    (changedResults sm tm f).countP (fun d => d.resourceID == id) = 0 := by
  rw [changedResults, List.countP_filterMap]
  apply List.countP_eq_zero.mpr
  intro p hp
  by_cases hp1 : p.1 = id
  · rw [hp1]
    simp [h]
  · cases htm : tm.lookup p.1 with
    | none => simp [htm]
    | some tr =>
      by_cases hf : (f p.2 tr).1 = ""
      · simp [htm, hf]
      · simp [htm, hf, hWF p hp, beq_iff_eq, hp1]

theorem countP_id_changedResults_matched (sm tm : List (String × Resource))
    (f : Resource → Resource → DriftStatus × String) (id : String) (s t : Resource)
    (hWF : ∀ p ∈ sm, p.2.id = p.1) (hnd : (sm.map Prod.fst).Nodup)
    (hs : sm.lookup id = some s) (ht : tm.lookup id = some t) :
    (changedResults sm tm f).countP (fun d => d.resourceID == id)
      = if (f s t).1 = "" then 0 else 1 := by
  have hsid : s.id = id := by
    have hmem := mem_of_lookup_eq_some sm id s hs
    exact hWF (id, s) hmem
  rw [changedResults, List.countP_filterMap]
  have hcongr : ∀ p ∈ sm,
      ((((match tm.lookup p.1 with
          | none => none
          | some truthRes =>
            if (f p.2 truthRes).1 = "" then none
            else some
              { resourceType := p.2.type, resourceName := p.2.name, resourceID := p.2.id,
                projectName := p.2.projectName, parentSG := getParentSG p.2,
                status := (f p.2 truthRes).1, details := (f p.2 truthRes).2
                : DiffResult }).map (fun (d : DiffResult) => d.resourceID == id)).getD false) = true)
        ↔ ((p.1 == id && !((f s t).1 == "")) = true) := by
    intro p hp
    by_cases hp1 : p.1 = id
    · have hp2 : p.2 = s := by
        have hlk : sm.lookup p.1 = some p.2 :=
          lookup_eq_some_of_mem_of_nodup sm p.1 p.2 hnd hp
        rw [hp1, hs] at hlk
        exact (Option.some.injEq _ _).mp hlk.symm
      rw [hp1, hp2, ht]
      by_cases hf : (f s t).1 = ""
      · simp [hf]
      · simp [hf, hsid]
    · cases htm : tm.lookup p.1 with
      | none => simp [htm, beq_iff_eq, hp1]
      | some tr =>
        by_cases hf : (f p.2 tr).1 = ""
        · simp [htm, hf, beq_iff_eq, hp1]
        · simp [htm, hf, hWF p hp, beq_iff_eq, hp1]
  rw [List.countP_congr hcongr]
  by_cases hf : (f s t).1 = ""
  · have hz : ∀ p ∈ sm, ¬ ((p.1 == id && !((f s t).1 == "")) = true) := by
      intro p _
      simp [hf]
    rw [List.countP_eq_zero.mpr hz]
    simp [hf]
  · have he : ∀ p ∈ sm, (p.1 == id && !((f s t).1 == "")) = (p.1 == id) := by
      intro p _
      simp [beq_iff_eq, hf]
    rw [List.countP_congr (fun p hp => by rw [he p hp])]
    rw [countP_key_eq_ite sm id hnd]
    have hmem : id ∈ sm.map Prod.fst :=
      (lookup_isSome_iff_mem_keys sm id).mp (by simp [hs])
    simp [hmem, hf]

theorem mem_missingInTruthResults_shape (sm tm : List (String × Resource)) (d : DiffResult)
    (hd : d ∈ missingInTruthResults sm tm) :
    ∃ p ∈ sm, tm.lookup p.1 = none ∧ d.status = StatusMissingInTruth
      ∧ d.resourceID = p.2.id ∧ d.resourceType = p.2.type := by
  rw [missingInTruthResults] at hd
  obtain ⟨p, hp, hfp⟩ := List.mem_filterMap.mp hd
  by_cases hsome : (tm.lookup p.1).isSome
  · simp [hsome] at hfp
  · rw [if_neg hsome] at hfp
    have hnone : tm.lookup p.1 = none := by
      cases h : tm.lookup p.1
      · rfl
      · rw [h] at hsome
        simp at hsome
    obtain rfl := (Option.some.injEq _ _).mp hfp
    exact ⟨p, hp, hnone, rfl, rfl, rfl⟩

theorem mem_missingInStateResults_shape (sm tm : List (String × Resource)) (d : DiffResult)
    (hd : d ∈ missingInStateResults sm tm) :
    ∃ p ∈ tm, sm.lookup p.1 = none ∧ d.status = StatusMissingInState
      ∧ d.resourceID = p.2.id ∧ d.resourceType = p.2.type := by
  rw [missingInStateResults] at hd
  obtain ⟨p, hp, hfp⟩ := List.mem_filterMap.mp hd
  by_cases hsome : (sm.lookup p.1).isSome
  · simp [hsome] at hfp
  · rw [if_neg hsome] at hfp
    have hnone : sm.lookup p.1 = none := by
      cases h : sm.lookup p.1
      · rfl
      · rw [h] at hsome
        simp at hsome
    obtain rfl := (Option.some.injEq _ _).mp hfp
    exact ⟨p, hp, hnone, rfl, rfl, rfl⟩

theorem mem_changedResults_shape (sm tm : List (String × Resource))
    (f : Resource → Resource → DriftStatus × String) (d : DiffResult)
    (hd : d ∈ changedResults sm tm f) :
    ∃ p ∈ sm, ∃ tr, tm.lookup p.1 = some tr ∧ (f p.2 tr).1 ≠ ""
      ∧ d.status = (f p.2 tr).1 ∧ d.details = (f p.2 tr).2
      ∧ d.resourceID = p.2.id ∧ d.resourceType = p.2.type := by
  rw [changedResults] at hd
  obtain ⟨p, hp, hfp⟩ := List.mem_filterMap.mp hd
  cases htm : tm.lookup p.1 with
  | none =>
    simp only [htm] at hfp
    simp at hfp
  | some tr =>
    simp only [htm] at hfp
    by_cases hf : (f p.2 tr).1 = ""
    · simp [hf] at hfp
    · rw [if_neg hf] at hfp
      obtain rfl := (Option.some.injEq _ _).mp hfp
      exact ⟨p, hp, tr, htm, hf, rfl, rfl, rfl, rfl⟩

theorem mem_compareResourcesByType_type (sRs tRs : List Resource)
    (f : Resource → Resource → DriftStatus × String) (k : ResourceType)
    (h1 : ∀ r ∈ sRs, r.type = k) (h2 : ∀ r ∈ tRs, r.type = k)
    (d : DiffResult) (hd : d ∈ compareResourcesByType sRs tRs f) : d.resourceType = k := by
  rw [compareResourcesByType] at hd
  rcases List.mem_append.mp hd with hd12 | hd3
  · rcases List.mem_append.mp hd12 with hd1 | hd2
    · obtain ⟨p, hp, _, _, _, htyp⟩ := mem_missingInTruthResults_shape _ _ _ hd1
      rw [htyp]
      exact h1 p.2 (mem_buildByID _ _ hp).2
    · obtain ⟨p, hp, _, _, _, htyp⟩ := mem_missingInStateResults_shape _ _ _ hd2
      rw [htyp]
      exact h2 p.2 (mem_buildByID _ _ hp).2
  · obtain ⟨p, hp, _, _, _, _, _, _, htyp⟩ := mem_changedResults_shape _ _ _ _ hd3
    rw [htyp]
    exact h1 p.2 (mem_buildByID _ _ hp).2

theorem compareByType_only_in_state (sRs tRs : List Resource)
    (f : Resource → Resource → DriftStatus × String) (id : String)
    (hin : id ∈ sRs.map Resource.id) (hout : id ∉ tRs.map Resource.id) :
    (compareResourcesByType sRs tRs f).countP (fun d => d.resourceID == id) = 1
    ∧ ∀ d ∈ compareResourcesByType sRs tRs f, d.resourceID = id →
        d.status = StatusMissingInTruth := by
  have hWFs : ∀ p ∈ buildByID sRs, p.2.id = p.1 := fun p hp => (mem_buildByID _ _ hp).1
  have hWFt : ∀ p ∈ buildByID tRs, p.2.id = p.1 := fun p hp => (mem_buildByID _ _ hp).1
  have hnds := nodup_keys_buildByID sRs
  have hndt := nodup_keys_buildByID tRs
  have hks : id ∈ (buildByID sRs).map Prod.fst := (mem_keys_buildByID _ _).mpr hin
  have hkt : id ∉ (buildByID tRs).map Prod.fst := fun h => hout ((mem_keys_buildByID _ _).mp h)
  have hlt : (buildByID tRs).lookup id = none := by
    cases h : (buildByID tRs).lookup id
    · rfl
    · exact absurd ((lookup_isSome_iff_mem_keys _ _).mp (by simp [h])) hkt
  constructor
  · rw [compareResourcesByType, List.countP_append, List.countP_append]
    rw [countP_id_missingInTruthResults _ _ id hWFs hnds,
        countP_id_missingInStateResults _ _ id hWFt hndt,
        countP_id_changedResults_truth_none _ _ f id hWFs hlt]
    simp [hks, hlt, hkt]
  · intro d hd hdid
    rw [compareResourcesByType] at hd
    rcases List.mem_append.mp hd with hd12 | hd3
    · rcases List.mem_append.mp hd12 with hd1 | hd2
      · exact (mem_missingInTruthResults_shape _ _ _ hd1).choose_spec.2.2.1
      · obtain ⟨p, hp, _, _, hid, _⟩ := mem_missingInStateResults_shape _ _ _ hd2
        have hp1 : p.1 = id := by rw [← hWFt p hp, ← hid, hdid]
        exact absurd (hp1 ▸ List.mem_map.mpr ⟨p, hp, rfl⟩) hkt
    · obtain ⟨p, hp, tr, htr, _, _, _, hid, _⟩ := mem_changedResults_shape _ _ _ _ hd3
      have hp1 : p.1 = id := by rw [← hWFs p hp, ← hid, hdid]
      rw [hp1, hlt] at htr
      simp at htr

theorem compareByType_only_in_truth (sRs tRs : List Resource)
    (f : Resource → Resource → DriftStatus × String) (id : String)
    (hout : id ∉ sRs.map Resource.id) (hin : id ∈ tRs.map Resource.id) :
    (compareResourcesByType sRs tRs f).countP (fun d => d.resourceID == id) = 1
    ∧ ∀ d ∈ compareResourcesByType sRs tRs f, d.resourceID = id →
        d.status = StatusMissingInState := by
  have hWFs : ∀ p ∈ buildByID sRs, p.2.id = p.1 := fun p hp => (mem_buildByID _ _ hp).1
  have hWFt : ∀ p ∈ buildByID tRs, p.2.id = p.1 := fun p hp => (mem_buildByID _ _ hp).1
  have hnds := nodup_keys_buildByID sRs
  have hndt := nodup_keys_buildByID tRs
  have hkt : id ∈ (buildByID tRs).map Prod.fst := (mem_keys_buildByID _ _).mpr hin
  have hks : id ∉ (buildByID sRs).map Prod.fst := fun h => hout ((mem_keys_buildByID _ _).mp h)
  have hls : (buildByID sRs).lookup id = none := by
    cases h : (buildByID sRs).lookup id
    · rfl
    · exact absurd ((lookup_isSome_iff_mem_keys _ _).mp (by simp [h])) hks
  constructor
  · rw [compareResourcesByType, List.countP_append, List.countP_append]
    rw [countP_id_missingInTruthResults _ _ id hWFs hnds,
        countP_id_missingInStateResults _ _ id hWFt hndt,
        countP_id_changedResults_state_none _ _ f id hWFs hls]
    simp [hks, hls, hkt]
  · intro d hd hdid
    rw [compareResourcesByType] at hd
    rcases List.mem_append.mp hd with hd12 | hd3
    · rcases List.mem_append.mp hd12 with hd1 | hd2
      · obtain ⟨p, hp, _, _, hid, _⟩ := mem_missingInTruthResults_shape _ _ _ hd1
        have hp1 : p.1 = id := by rw [← hWFs p hp, ← hid, hdid]
        exact absurd (hp1 ▸ List.mem_map.mpr ⟨p, hp, rfl⟩) hks
      · exact (mem_missingInStateResults_shape _ _ _ hd2).choose_spec.2.2.1
    · obtain ⟨p, hp, tr, htr, _, _, _, hid, _⟩ := mem_changedResults_shape _ _ _ _ hd3
      have hp1 : p.1 = id := by rw [← hWFs p hp, ← hid, hdid]
      have : id ∈ (buildByID sRs).map Prod.fst := by
        rw [← hp1]
        exact List.mem_map.mpr ⟨p, hp, rfl⟩
      exact absurd this hks

theorem compareByType_matched (sRs tRs : List Resource)
    (f : Resource → Resource → DriftStatus × String) (id : String) (s t : Resource)
    (hs : (buildByID sRs).lookup id = some s) (ht : (buildByID tRs).lookup id = some t) :
    (compareResourcesByType sRs tRs f).countP (fun d => d.resourceID == id)
        = (if (f s t).1 = "" then 0 else 1)
    ∧ ∀ d ∈ compareResourcesByType sRs tRs f, d.resourceID = id →
        d.status = (f s t).1 ∧ d.details = (f s t).2 := by
  have hWFs : ∀ p ∈ buildByID sRs, p.2.id = p.1 := fun p hp => (mem_buildByID _ _ hp).1
  have hWFt : ∀ p ∈ buildByID tRs, p.2.id = p.1 := fun p hp => (mem_buildByID _ _ hp).1
  have hnds := nodup_keys_buildByID sRs
  have hndt := nodup_keys_buildByID tRs
  constructor
  · rw [compareResourcesByType, List.countP_append, List.countP_append]
    rw [countP_id_missingInTruthResults _ _ id hWFs hnds,
        countP_id_missingInStateResults _ _ id hWFt hndt,
        countP_id_changedResults_matched _ _ f id s t hWFs hnds hs ht]
    simp [hs, ht]
  · intro d hd hdid
    rw [compareResourcesByType] at hd
    rcases List.mem_append.mp hd with hd12 | hd3
    · rcases List.mem_append.mp hd12 with hd1 | hd2
      · obtain ⟨p, hp, hnone, _, hid, _⟩ := mem_missingInTruthResults_shape _ _ _ hd1
        have hp1 : p.1 = id := by rw [← hWFs p hp, ← hid, hdid]
        rw [hp1, ht] at hnone
        simp at hnone
      · obtain ⟨p, hp, hnone, _, hid, _⟩ := mem_missingInStateResults_shape _ _ _ hd2
        have hp1 : p.1 = id := by rw [← hWFt p hp, ← hid, hdid]
        rw [hp1, hs] at hnone
        simp at hnone
    · obtain ⟨p, hp, tr, htr, _, hstat, hdet, hid, _⟩ := mem_changedResults_shape _ _ _ _ hd3
      have hp1 : p.1 = id := by rw [← hWFs p hp, ← hid, hdid]
      have hp2 : p.2 = s := by
        have hlk : (buildByID sRs).lookup p.1 = some p.2 :=
          lookup_eq_some_of_mem_of_nodup _ p.1 p.2 hnds hp
        rw [hp1, hs] at hlk
        exact (Option.some.injEq _ _).mp hlk.symm
      have htr2 : tr = t := by
        rw [hp1, ht] at htr
        exact ((Option.some.injEq _ _).mp htr).symm
      rw [hstat, hdet, hp2, htr2]
      exact ⟨rfl, rfl⟩

/-- Go `groupByType` (compare.go) builds per-type lists preserving input
order, so the list `CompareResources` hands to each per-kind comparison is the
order-preserving filter of the input by that kind. -/
def groupByType (resources : List Resource) (t : ResourceType) : List Resource :=
  resources.filter (fun res => res.type == t)

/-- Go `CompareResources` (compare.go): the three kinds compared
independently, results appended in program order. -/
def CompareResources (state truth : List Resource) : List DiffResult :=
  compareResourcesByType (groupByType state ResourceTypeServer)
      (groupByType truth ResourceTypeServer) compareServerProperties
    ++ compareResourcesByType (groupByType state ResourceTypeSecurityGroup)
      (groupByType truth ResourceTypeSecurityGroup) compareSecurityGroupProperties
    ++ compareResourcesByType (groupByType state ResourceTypeSecurityGroupRule)
      (groupByType truth ResourceTypeSecurityGroupRule) compareSecurityGroupRuleProperties

/-- Proof-layer accessor: the property comparator `CompareResources` uses for
each of the three kinds. -/
def comparerFor : ResourceType → Resource → Resource → DriftStatus × String
  | "server" => compareServerProperties
  | "security-group" => compareSecurityGroupProperties
  | _ => compareSecurityGroupRuleProperties

theorem comparerFor_server : comparerFor ResourceTypeServer = compareServerProperties := rfl

theorem comparerFor_secgroup :
    comparerFor ResourceTypeSecurityGroup = compareSecurityGroupProperties := rfl

theorem comparerFor_rule :
    comparerFor ResourceTypeSecurityGroupRule = compareSecurityGroupRuleProperties := rfl

theorem mem_groupByType_type (l : List Resource) (k : ResourceType) :
    ∀ r ∈ groupByType l k, r.type = k := by
  intro r hr
  have := List.of_mem_filter hr
  simpa [beq_iff_eq] using this

theorem countP_idType_call_eq (sRs tRs : List Resource)
    (f : Resource → Resource → DriftStatus × String) (k : ResourceType) (id : String)
    (h1 : ∀ r ∈ sRs, r.type = k) (h2 : ∀ r ∈ tRs, r.type = k) :
    (compareResourcesByType sRs tRs f).countP
        (fun d => d.resourceID == id && d.resourceType == k)
      = (compareResourcesByType sRs tRs f).countP (fun d => d.resourceID == id) := by
  apply List.countP_congr
  intro d hd
  have htyp := mem_compareResourcesByType_type sRs tRs f k h1 h2 d hd
  simp [htyp]

theorem countP_idType_call_zero (sRs tRs : List Resource)
    (f : Resource → Resource → DriftStatus × String) (kin k : ResourceType) (id : String)
    (h1 : ∀ r ∈ sRs, r.type = kin) (h2 : ∀ r ∈ tRs, r.type = kin) (hne : kin ≠ k) :
    (compareResourcesByType sRs tRs f).countP
        (fun d => d.resourceID == id && d.resourceType == k) = 0 := by
  apply List.countP_eq_zero.mpr
  intro d hd
  have htyp := mem_compareResourcesByType_type sRs tRs f kin h1 h2 d hd
  simp [htyp, hne]

theorem countP_CompareResources_kind (state truth : List Resource) (k : ResourceType)
    (id : String)
    (hk : k = ResourceTypeServer ∨ k = ResourceTypeSecurityGroup
      ∨ k = ResourceTypeSecurityGroupRule) :
    (CompareResources state truth).countP
        (fun d => d.resourceID == id && d.resourceType == k)
      = (compareResourcesByType (groupByType state k) (groupByType truth k)
          (comparerFor k)).countP (fun d => d.resourceID == id) := by
  rw [CompareResources, List.countP_append, List.countP_append]
  rcases hk with rfl | rfl | rfl
  · rw [countP_idType_call_eq _ _ _ _ id (mem_groupByType_type state _)
        (mem_groupByType_type truth _),
      countP_idType_call_zero _ _ _ _ _ id (mem_groupByType_type state ResourceTypeSecurityGroup)
        (mem_groupByType_type truth ResourceTypeSecurityGroup)
        (by simp [ResourceTypeSecurityGroup, ResourceTypeServer]),
      countP_idType_call_zero _ _ _ _ _ id
        (mem_groupByType_type state ResourceTypeSecurityGroupRule)
        (mem_groupByType_type truth ResourceTypeSecurityGroupRule)
        (by simp [ResourceTypeSecurityGroupRule, ResourceTypeServer])]
    simp [comparerFor_server]
  · rw [countP_idType_call_eq _ _ _ _ id (mem_groupByType_type state _)
        (mem_groupByType_type truth _),
      countP_idType_call_zero _ _ _ _ _ id (mem_groupByType_type state ResourceTypeServer)
        (mem_groupByType_type truth ResourceTypeServer)
        (by simp [ResourceTypeSecurityGroup, ResourceTypeServer]),
      countP_idType_call_zero _ _ _ _ _ id
        (mem_groupByType_type state ResourceTypeSecurityGroupRule)
        (mem_groupByType_type truth ResourceTypeSecurityGroupRule)
        (by simp [ResourceTypeSecurityGroupRule, ResourceTypeSecurityGroup])]
    simp [comparerFor_secgroup]
  · rw [countP_idType_call_eq _ _ _ _ id (mem_groupByType_type state _)
        (mem_groupByType_type truth _),
      countP_idType_call_zero _ _ _ _ _ id (mem_groupByType_type state ResourceTypeServer)
        (mem_groupByType_type truth ResourceTypeServer)
        (by simp [ResourceTypeSecurityGroupRule, ResourceTypeServer]),
      countP_idType_call_zero _ _ _ _ _ id
        (mem_groupByType_type state ResourceTypeSecurityGroup)
        (mem_groupByType_type truth ResourceTypeSecurityGroup)
        (by simp [ResourceTypeSecurityGroupRule, ResourceTypeSecurityGroup])]
    simp [comparerFor_rule]

theorem mem_CompareResources_kind (state truth : List Resource) (d : DiffResult)
    (hd : d ∈ CompareResources state truth) (k : ResourceType)
    (hk : k = ResourceTypeServer ∨ k = ResourceTypeSecurityGroup
      ∨ k = ResourceTypeSecurityGroupRule)
    (hdk : d.resourceType = k) :
    d ∈ compareResourcesByType (groupByType state k) (groupByType truth k) (comparerFor k) := by
  rw [CompareResources] at hd
  rcases List.mem_append.mp hd with hd12 | hd3
  · rcases List.mem_append.mp hd12 with hd1 | hd2
    · have htyp := mem_compareResourcesByType_type _ _ _ ResourceTypeServer
        (mem_groupByType_type state _) (mem_groupByType_type truth _) d hd1
      rcases hk with rfl | rfl | rfl
      · exact hd1
      · rw [hdk] at htyp
        simp [ResourceTypeServer, ResourceTypeSecurityGroup] at htyp
      · rw [hdk] at htyp
        simp [ResourceTypeServer, ResourceTypeSecurityGroupRule] at htyp
    · have htyp := mem_compareResourcesByType_type _ _ _ ResourceTypeSecurityGroup
        (mem_groupByType_type state _) (mem_groupByType_type truth _) d hd2
      rcases hk with rfl | rfl | rfl
      · rw [hdk] at htyp
        simp [ResourceTypeServer, ResourceTypeSecurityGroup] at htyp
      · exact hd2
      · rw [hdk] at htyp
        simp [ResourceTypeSecurityGroup, ResourceTypeSecurityGroupRule] at htyp
  · have htyp := mem_compareResourcesByType_type _ _ _ ResourceTypeSecurityGroupRule
      (mem_groupByType_type state _) (mem_groupByType_type truth _) d hd3
    rcases hk with rfl | rfl | rfl
    · rw [hdk] at htyp
      simp [ResourceTypeServer, ResourceTypeSecurityGroupRule] at htyp
    · rw [hdk] at htyp
      simp [ResourceTypeSecurityGroup, ResourceTypeSecurityGroupRule] at htyp
    · exact hd3

theorem compareServerProperties_eq_of_agree (s t : Resource) (hn : s.name = t.name)
    (hsg : normalizeSecurityGroups s.securityGroups = normalizeSecurityGroups t.securityGroups) :
    compareServerProperties s t = ("", "") := by
  simp [compareServerProperties, hn, stringSlicesEqual, hsg]

/-- C2: within each kind partition, an ID occurring on exactly one of the two
sides yields exactly one `DiffResult` (status `missing_in_truth` when only in
state, `missing_in_state` when only in truth), and a matched ID whose tracked
fields (name and, for servers, normalized security groups) agree yields no
`DiffResult` at all. -/
theorem compare_partition_missing_and_agree
    (state truth : List Resource) (k : ResourceType) (id : String)
    (hk : k = ResourceTypeServer ∨ k = ResourceTypeSecurityGroup
      ∨ k = ResourceTypeSecurityGroupRule) :
    (id ∈ (groupByType state k).map Resource.id →
      id ∉ (groupByType truth k).map Resource.id →
      (CompareResources state truth).countP
          (fun d => d.resourceID == id && d.resourceType == k) = 1
      ∧ ∀ d ∈ CompareResources state truth, d.resourceID = id → d.resourceType = k →
          d.status = StatusMissingInTruth)
    ∧ (id ∉ (groupByType state k).map Resource.id →
      id ∈ (groupByType truth k).map Resource.id →
      (CompareResources state truth).countP
          (fun d => d.resourceID == id && d.resourceType == k) = 1
      ∧ ∀ d ∈ CompareResources state truth, d.resourceID = id → d.resourceType = k →
          d.status = StatusMissingInState)
    ∧ (id ∈ (groupByType state k).map Resource.id →
      id ∈ (groupByType truth k).map Resource.id →
      (∀ sr ∈ groupByType state k, sr.id = id → ∀ tr ∈ groupByType truth k, tr.id = id →
        sr.name = tr.name ∧ normalizeSecurityGroups sr.securityGroups
          = normalizeSecurityGroups tr.securityGroups) →
      (CompareResources state truth).countP
          (fun d => d.resourceID == id && d.resourceType == k) = 0) := by
  refine ⟨?_, ?_, ?_⟩
  · intro hin hout
    have hmain := compareByType_only_in_state (groupByType state k) (groupByType truth k)
      (comparerFor k) id hin hout
    refine ⟨?_, ?_⟩
    · rw [countP_CompareResources_kind state truth k id hk]
      exact hmain.1
    · intro d hd hdid hdk
      exact hmain.2 d (mem_CompareResources_kind state truth d hd k hk hdk) hdid
  · intro hout hin
    have hmain := compareByType_only_in_truth (groupByType state k) (groupByType truth k)
      (comparerFor k) id hout hin
    refine ⟨?_, ?_⟩
    · rw [countP_CompareResources_kind state truth k id hk]
      exact hmain.1
    · intro d hd hdid hdk
      exact hmain.2 d (mem_CompareResources_kind state truth d hd k hk hdk) hdid
  · intro hin hint hagree
    have hsS : ((buildByID (groupByType state k)).lookup id).isSome :=
      (lookup_isSome_iff_mem_keys _ _).mpr ((mem_keys_buildByID _ _).mpr hin)
    have htS : ((buildByID (groupByType truth k)).lookup id).isSome :=
      (lookup_isSome_iff_mem_keys _ _).mpr ((mem_keys_buildByID _ _).mpr hint)
    obtain ⟨s, hs⟩ := Option.isSome_iff_exists.mp hsS
    obtain ⟨t, ht⟩ := Option.isSome_iff_exists.mp htS
    have hsmem := mem_buildByID _ _ (mem_of_lookup_eq_some _ _ _ hs)
    have htmem := mem_buildByID _ _ (mem_of_lookup_eq_some _ _ _ ht)
    have hagree2 := hagree s hsmem.2 hsmem.1 t htmem.2 htmem.1
    have hzero : (comparerFor k s t).1 = "" := by
      rcases hk with rfl | rfl | rfl
      · rw [comparerFor_server, compareServerProperties_eq_of_agree s t hagree2.1 hagree2.2]
      · rw [comparerFor_secgroup]
        simp [compareSecurityGroupProperties, hagree2.1]
      · rw [comparerFor_rule]
        simp [compareSecurityGroupRuleProperties]
    rw [countP_CompareResources_kind state truth k id hk]
    rw [(compareByType_matched _ _ (comparerFor k) id s t hs ht).1, if_pos hzero]

theorem compare_partition_missing_and_agree_witness :
    (CompareResources
        [{ id := "s1", name := "web1", type := "server", projectName := "p" }]
        []).countP
      (fun d => d.resourceID == "s1" && d.resourceType == "server") = 1 :=
  ((compare_partition_missing_and_agree
      [{ id := "s1", name := "web1", type := "server", projectName := "p" }]
      [] "server" "s1" (Or.inl rfl)).1
    (by decide) (by decide)).1

theorem compareServerProperties_fst_of_name_ne (s t : Resource) (hname : s.name ≠ t.name) :
    (compareServerProperties s t).1 = StatusNameChanged := by
  simp only [compareServerProperties, if_neg (by simpa using hname)]
  have hlen : (if s.name ≠ t.name then
      ["name: " ++ goQuote s.name ++ " -> " ++ goQuote t.name] else []) =
      ["name: " ++ goQuote s.name ++ " -> " ++ goQuote t.name] := if_pos hname
  simp [hname, hlen]

/-- C3: a matched pair of server resources differing both in name and in
normalized security groups produces exactly one server `DiffResult` for that
ID, and its status is `name_changed`, never `secgroups_changed`. -/
theorem server_name_change_precedence (state truth : List Resource) (id : String)
    (s t : Resource)
    (hs : (buildByID (groupByType state ResourceTypeServer)).lookup id = some s)
    (ht : (buildByID (groupByType truth ResourceTypeServer)).lookup id = some t)
    (hname : s.name ≠ t.name)
    (hsg : normalizeSecurityGroups s.securityGroups
      ≠ normalizeSecurityGroups t.securityGroups) :
    (CompareResources state truth).countP
        (fun d => d.resourceID == id && d.resourceType == ResourceTypeServer) = 1
    ∧ ∀ d ∈ CompareResources state truth,
        d.resourceID = id → d.resourceType = ResourceTypeServer →
          d.status = StatusNameChanged := by
  have hk : (ResourceTypeServer : ResourceType) = ResourceTypeServer
      ∨ ResourceTypeServer = ResourceTypeSecurityGroup
      ∨ ResourceTypeServer = ResourceTypeSecurityGroupRule := Or.inl rfl
  have hs2 : (buildByID (groupByType state ResourceTypeServer)).lookup id
      = some s := hs
  have hfst : (comparerFor ResourceTypeServer s t).1 = StatusNameChanged := by
    rw [comparerFor_server]
    exact compareServerProperties_fst_of_name_ne s t hname
  have hmain := compareByType_matched (groupByType state ResourceTypeServer)
    (groupByType truth ResourceTypeServer) (comparerFor ResourceTypeServer) id s t hs2 ht
  constructor
  · rw [countP_CompareResources_kind state truth ResourceTypeServer id hk, hmain.1, hfst]
    simp [StatusNameChanged]
  · intro d hd hdid hdk
    have hd2 := mem_CompareResources_kind state truth d hd ResourceTypeServer hk hdk
    rw [(hmain.2 d hd2 hdid).1, hfst]

theorem server_name_change_precedence_witness :
    (CompareResources
        [{ id := "s1", name := "web1", type := "server", projectName := "p",
           securityGroups := ["a"] }]
        [{ id := "s1", name := "web2", type := "server", projectName := "p",
           securityGroups := ["b"] }]).countP
      (fun d => d.resourceID == "s1" && d.resourceType == "server") = 1 :=
  (server_name_change_precedence
    [{ id := "s1", name := "web1", type := "server", projectName := "p",
       securityGroups := ["a"] }]
    [{ id := "s1", name := "web2", type := "server", projectName := "p",
       securityGroups := ["b"] }]
    "s1"
    { id := "s1", name := "web1", type := "server", projectName := "p",
      securityGroups := ["a"] }
    { id := "s1", name := "web2", type := "server", projectName := "p",
      securityGroups := ["b"] }
    (by decide) (by decide) (by decide) (by decide)).1

/-- C4: the rule comparator reports no status for any matched pair, so a rule
resource can only ever receive the statuses `missing_in_truth` or
`missing_in_state` from `CompareResources`. -/
theorem rule_comparator_silent :
    (∀ sr tr : Resource, compareSecurityGroupRuleProperties sr tr = ("", ""))
    ∧ ∀ state truth : List Resource, ∀ d ∈ CompareResources state truth,
        d.resourceType = ResourceTypeSecurityGroupRule →
          d.status = StatusMissingInTruth ∨ d.status = StatusMissingInState := by
  constructor
  · intro sr tr
    rfl
  · intro state truth d hd hdk
    have hd2 := mem_CompareResources_kind state truth d hd ResourceTypeSecurityGroupRule
      (Or.inr (Or.inr rfl)) hdk
    rw [comparerFor_rule, compareResourcesByType] at hd2
    rcases List.mem_append.mp hd2 with hd12 | hd3
    · rcases List.mem_append.mp hd12 with h1 | h2
      · exact Or.inl (mem_missingInTruthResults_shape _ _ _ h1).choose_spec.2.2.1
      · exact Or.inr (mem_missingInStateResults_shape _ _ _ h2).choose_spec.2.2.1
    · obtain ⟨p, _, tr, _, hne, _, _, _, _⟩ := mem_changedResults_shape _ _ _ _ hd3
      exact absurd rfl hne

theorem rule_comparator_silent_witness :
    compareSecurityGroupRuleProperties
        { id := "r1", name := "", type := "security-group-rule", projectName := "p" }
        { id := "r1", name := "", type := "security-group-rule", projectName := "p" }
      = ("", "")
    ∧ ({ resourceType := "security-group-rule", resourceName := "", resourceID := "r1",
         projectName := "p", parentSG := "sg1", status := "missing_in_truth",
         details := "Resource exists in Terraform state but not in OpenStack"
         : DiffResult }.status = StatusMissingInTruth
      ∨ ({ resourceType := "security-group-rule", resourceName := "", resourceID := "r1",
           projectName := "p", parentSG := "sg1", status := "missing_in_truth",
           details := "Resource exists in Terraform state but not in OpenStack"
           : DiffResult }).status = StatusMissingInState) :=
  ⟨rule_comparator_silent.1 _ _,
   rule_comparator_silent.2
     [{ id := "r1", name := "", type := "security-group-rule", projectName := "p",
        parentID := "sg1" }]
     []
     { resourceType := "security-group-rule", resourceName := "", resourceID := "r1",
       projectName := "p", parentSG := "sg1", status := "missing_in_truth",
       details := "Resource exists in Terraform state but not in OpenStack" }
     (by decide) (by decide)⟩

theorem mem_dedupKeepFirst (l : List String) (seen : List String) (x : String) :
    x ∈ dedupKeepFirst seen l ↔ x ∈ l ∧ x ∉ seen := by
  induction l generalizing seen with
  | nil => simp [dedupKeepFirst]
  | cons sg rest ih =>
    simp only [dedupKeepFirst]
    by_cases hseen : sg ∈ seen
    · rw [if_pos (by simpa using hseen), ih]
      constructor
      · rintro ⟨hx, hns⟩
        exact ⟨List.mem_cons_of_mem _ hx, hns⟩
      · rintro ⟨hx, hns⟩
        rcases List.mem_cons.mp hx with rfl | hx2
        · exact absurd hseen hns
        · exact ⟨hx2, hns⟩
    · rw [if_neg (by simpa using hseen)]
      simp only [List.mem_cons, ih]
      constructor
      · rintro (rfl | ⟨hx, hns⟩)
        · exact ⟨Or.inl rfl, hseen⟩
        · exact ⟨Or.inr hx, fun hc => hns (Or.inr hc)⟩
      · rintro ⟨hx, hns⟩
        rcases hx with rfl | hx2
        · exact Or.inl rfl
        · by_cases hxsg : x = sg
          · exact Or.inl hxsg
          · exact Or.inr ⟨hx2, by simp [List.mem_cons, hxsg, hns]⟩

theorem nodup_dedupKeepFirst (l : List String) (seen : List String) :
    (dedupKeepFirst seen l).Nodup := by
  induction l generalizing seen with
  | nil => simp [dedupKeepFirst]
  | cons sg rest ih =>
    simp only [dedupKeepFirst]
    by_cases hseen : sg ∈ seen
    · rw [if_pos (by simpa using hseen)]
      exact ih seen
    · rw [if_neg (by simpa using hseen)]
      refine List.nodup_cons.mpr ⟨?_, ih (sg :: seen)⟩
      intro hc
      exact ((mem_dedupKeepFirst rest (sg :: seen) sg).mp hc).2 (List.mem_cons_self _ _)

theorem mem_normalizeSecurityGroups (l : List String) (x : String) :
    x ∈ normalizeSecurityGroups l ↔ x ∈ l := by
  rw [normalizeSecurityGroups]
  by_cases hl : l.isEmpty
  · rw [if_pos hl]
    rw [List.isEmpty_iff] at hl
    simp [hl]
  · rw [if_neg hl, sortStrings, List.mem_insertionSort, mem_dedupKeepFirst]
    simp

theorem nodup_normalizeSecurityGroups (l : List String) :
    (normalizeSecurityGroups l).Nodup := by
  rw [normalizeSecurityGroups]
  by_cases hl : l.isEmpty
  · rw [if_pos hl]
    exact List.nodup_nil
  · rw [if_neg hl, sortStrings]
    exact (List.perm_insertionSort _ _).nodup_iff.mpr (nodup_dedupKeepFirst l [])

theorem sorted_normalizeSecurityGroups (l : List String) :
    (normalizeSecurityGroups l).Sorted (· ≤ ·) := by
  rw [normalizeSecurityGroups]
  by_cases hl : l.isEmpty
  · rw [if_pos hl]
    exact List.sorted_nil
  · rw [if_neg hl, sortStrings]
    exact List.sorted_insertionSort _ _

theorem normalizeSecurityGroups_eq_of_same_mem (a b : List String)
    (h : ∀ x, x ∈ a ↔ x ∈ b) :
    normalizeSecurityGroups a = normalizeSecurityGroups b := by
  apply List.eq_of_perm_of_sorted ?_ (sorted_normalizeSecurityGroups a)
    (sorted_normalizeSecurityGroups b)
  apply (List.perm_ext_iff_of_nodup (nodup_normalizeSecurityGroups a)
    (nodup_normalizeSecurityGroups b)).mpr
  intro x
  rw [mem_normalizeSecurityGroups, mem_normalizeSecurityGroups]
  exact h x

theorem compareServerProperties_secgroups_changed (s t : Resource)
    (added removed : List String) (hname : s.name = t.name)
    (hne : normalizeSecurityGroups s.securityGroups
      ≠ normalizeSecurityGroups t.securityGroups)
    (hd : diffStringSlices (normalizeSecurityGroups s.securityGroups)
        (normalizeSecurityGroups t.securityGroups) = (added, removed))
    (hpos : added.length > 0 ∨ removed.length > 0) :
    compareServerProperties s t
      = (StatusSecGroupChanged,
         "security_groups: " ++ String.intercalate ", "
           ((if added.length > 0 then ["added: " ++ goFmtStrSlice added] else [])
             ++ (if removed.length > 0 then ["removed: " ++ goFmtStrSlice removed] else []))) := by
  have hname2 : ¬ s.name ≠ t.name := by simp [hname]
  have hsgeq : ¬ (stringSlicesEqual (normalizeSecurityGroups s.securityGroups)
      (normalizeSecurityGroups t.securityGroups) = true) := by
    simp [stringSlicesEqual, hne]
  rw [compareServerProperties]
  simp only [if_neg hname2, if_pos hsgeq, hd, if_pos hpos, List.nil_append]
  have hlen : ¬ (["security_groups: " ++ String.intercalate ", "
      ((if added.length > 0 then ["added: " ++ goFmtStrSlice added] else [])
        ++ (if removed.length > 0 then ["removed: " ++ goFmtStrSlice removed]
            else []))].length = 0) := by
    simp
  rfl

/-- C5: server security-group comparison is order- and duplicate-insensitive:
two lists denoting the same set of names compare equal and produce no diff;
when the sets differ, the one `secgroups_changed` result's Details renders the
added and removed subsets. -/
theorem secgroups_set_semantics (s t : Resource) (hname : s.name = t.name) :
    ((∀ x, x ∈ s.securityGroups ↔ x ∈ t.securityGroups) →
      compareServerProperties s t = ("", ""))
    ∧ ((¬ ∀ x, x ∈ s.securityGroups ↔ x ∈ t.securityGroups) →
      ∃ added removed,
        diffStringSlices (normalizeSecurityGroups s.securityGroups)
            (normalizeSecurityGroups t.securityGroups) = (added, removed)
        ∧ (∀ x, x ∈ added ↔ x ∈ t.securityGroups ∧ x ∉ s.securityGroups)
        ∧ (∀ x, x ∈ removed ↔ x ∈ s.securityGroups ∧ x ∉ t.securityGroups)
        ∧ compareServerProperties s t
            = (StatusSecGroupChanged,
              "security_groups: " ++ String.intercalate ", "
                ((if added.length > 0 then ["added: " ++ goFmtStrSlice added] else [])
                  ++ (if removed.length > 0
                      then ["removed: " ++ goFmtStrSlice removed] else [])))) := by
  constructor
  · intro h
    exact compareServerProperties_eq_of_agree s t hname
      (normalizeSecurityGroups_eq_of_same_mem _ _ h)
  · intro hne_mem
    have hne : normalizeSecurityGroups s.securityGroups
        ≠ normalizeSecurityGroups t.securityGroups := by
      intro hc
      apply hne_mem
      intro x
      rw [← mem_normalizeSecurityGroups s.securityGroups x, hc,
        mem_normalizeSecurityGroups]
    refine ⟨(diffStringSlices (normalizeSecurityGroups s.securityGroups)
        (normalizeSecurityGroups t.securityGroups)).1,
      (diffStringSlices (normalizeSecurityGroups s.securityGroups)
        (normalizeSecurityGroups t.securityGroups)).2, rfl, ?_, ?_, ?_⟩
    · intro x
      simp [diffStringSlices, List.mem_filter, mem_normalizeSecurityGroups]
    · intro x
      simp [diffStringSlices, List.mem_filter, mem_normalizeSecurityGroups]
    · have hcharA : ∀ x, x ∈ (diffStringSlices (normalizeSecurityGroups s.securityGroups)
          (normalizeSecurityGroups t.securityGroups)).1
            ↔ x ∈ t.securityGroups ∧ x ∉ s.securityGroups := by
        intro x
        simp [diffStringSlices, List.mem_filter, mem_normalizeSecurityGroups]
      have hcharR : ∀ x, x ∈ (diffStringSlices (normalizeSecurityGroups s.securityGroups)
          (normalizeSecurityGroups t.securityGroups)).2
            ↔ x ∈ s.securityGroups ∧ x ∉ t.securityGroups := by
        intro x
        simp [diffStringSlices, List.mem_filter, mem_normalizeSecurityGroups]
      have hpos : (diffStringSlices (normalizeSecurityGroups s.securityGroups)
            (normalizeSecurityGroups t.securityGroups)).1.length > 0
          ∨ (diffStringSlices (normalizeSecurityGroups s.securityGroups)
            (normalizeSecurityGroups t.securityGroups)).2.length > 0 := by
        by_contra hz
        push_neg at hz
        have hA : (diffStringSlices (normalizeSecurityGroups s.securityGroups)
            (normalizeSecurityGroups t.securityGroups)).1 = [] :=
          List.length_eq_zero.mp (Nat.le_zero.mp hz.1)
        have hR : (diffStringSlices (normalizeSecurityGroups s.securityGroups)
            (normalizeSecurityGroups t.securityGroups)).2 = [] :=
          List.length_eq_zero.mp (Nat.le_zero.mp hz.2)
        apply hne_mem
        intro x
        constructor
        · intro hx
          by_contra hnx
          have : x ∈ (diffStringSlices (normalizeSecurityGroups s.securityGroups)
              (normalizeSecurityGroups t.securityGroups)).2 := (hcharR x).mpr ⟨hx, hnx⟩
          rw [hR] at this
          simp at this
        · intro hx
          by_contra hnx
          have : x ∈ (diffStringSlices (normalizeSecurityGroups s.securityGroups)
              (normalizeSecurityGroups t.securityGroups)).1 := (hcharA x).mpr ⟨hx, hnx⟩
          rw [hA] at this
          simp at this
      exact compareServerProperties_secgroups_changed s t _ _ hname hne rfl hpos

theorem secgroups_set_semantics_witness :
    compareServerProperties
        { id := "s1", name := "n", type := "server", projectName := "p",
          securityGroups := ["a", "b", "a"] }
        { id := "s1", name := "n", type := "server", projectName := "p",
          securityGroups := ["b", "a"] }
      = ("", "") :=
  (secgroups_set_semantics
      { id := "s1", name := "n", type := "server", projectName := "p",
        securityGroups := ["a", "b", "a"] }
      { id := "s1", name := "n", type := "server", projectName := "p",
        securityGroups := ["b", "a"] }
      rfl).1 (by
        intro x
        simp only [List.mem_cons, List.not_mem_nil, or_false]
        tauto)

/-! ### Truth extractor (internal/drift/truth.go, current schema version) -/

/-- Go struct `OscRuleFields` (truth.go). -/
structure OscRuleFields where
  direction : String := ""
  protocol : String := ""
  portRange : String := ""
  remoteIP : String := ""
deriving DecidableEq, Repr

/-- Go struct `OscRow` (truth.go): top-level normalized fields plus the legacy
`fields` map (absent JSON strings decode to ""). -/
structure OscRow where
  type : String := ""
  id : String := ""
  name : String := ""
  projectName : String := ""
  projectID : String := ""
  ipAddress : String := ""
  securityGroups : List String := []
  parentID : String := ""
  parentName : String := ""
  ruleFields : Option OscRuleFields := none
  fields : List (String × String) := []
deriving DecidableEq, Repr

/-- Go struct `OscFiltering` (truth.go). -/
structure OscFiltering where
  filteredProjectCount : Int := 0
  matchedProjects : List String := []
deriving DecidableEq, Repr

/-- Go struct `OscMetadata` (truth.go). -/
structure OscMetadata where
  filtering : Option OscFiltering := none
deriving DecidableEq, Repr

/-- Go struct `OscOutput` (truth.go). -/
structure OscOutput where
  metadata : Option OscMetadata := none
  headers : List String := []
  data : List OscRow := []
deriving DecidableEq, Repr

/-- Go `getOscField` (truth.go): try the alias keys in order, returning the
first value that is present, non-empty and not the placeholder "n/a". -/
def getOscField (fields : List (String × String)) : List String → String
  | [] => ""
  | key :: keys =>
    match fields.lookup key with
    | some v => if v ≠ "" ∧ v ≠ "n/a" then v else getOscField fields keys
    | none => getOscField fields keys

/-- The Go assignment pattern shared by the three truth extractors:
`x := row.X; if x == "" { x = getOscField(row.Fields, aliases...) }`. -/
def fieldWithFallback (top : String) (fields : List (String × String))
    (aliases : List String) : String :=
  if top = "" then getOscField fields aliases else top

/-- Go `extractOscServer` (truth.go, current version). -/
def extractOscServer (row : OscRow) (projectName : String) : Option Resource :=
  let id := fieldWithFallback row.id row.fields ["Server ID", "server_id", "id"]
  let name := fieldWithFallback row.name row.fields ["Server Name", "server_name", "name"]
  if id = "" then none
  else
    let project :=
      if projectName = "" then
        fieldWithFallback row.projectName row.fields ["Project Name", "project_name", "project"]
      else projectName
    let ipAddr :=
      fieldWithFallback row.ipAddress row.fields ["IPv4 Address", "ipv4_address", "ip_address"]
    some
      { id := id, name := name, type := ResourceTypeServer, projectName := project
        securityGroups := row.securityGroups
        properties := [("ip_address", GoValue.str ipAddr)] }

/-- Go `extractOscSecurityGroup` (truth.go, current version). -/
def extractOscSecurityGroup (row : OscRow) (projectName : String) : Option Resource :=
  let id := fieldWithFallback row.id row.fields ["ID", "id"]
  let name := fieldWithFallback row.name row.fields ["Name", "name"]
  if id = "" then none
  else
    let project :=
      if projectName = "" then
        fieldWithFallback row.projectName row.fields ["Project Name", "project_name", "project"]
      else projectName
    some { id := id, name := name, type := ResourceTypeSecurityGroup, projectName := project }

/-- Go `extractOscSecurityGroupRule` (truth.go, current version); the rule
properties are copied from `ruleFields` when present. -/
def extractOscSecurityGroupRule (row : OscRow) (projectName : String) : Option Resource :=
  let id := fieldWithFallback row.id row.fields ["ID", "id"]
  let parentID := fieldWithFallback row.parentID row.fields ["Parent ID", "parent_id"]
  let parentName :=
    fieldWithFallback row.parentName row.fields ["Parent Name", "parent_name", "Name"]
  if id = "" then none
  else
    let project :=
      if projectName = "" then
        fieldWithFallback row.projectName row.fields ["Project Name", "project_name", "project"]
      else projectName
    let props : List (String × GoValue) :=
      match row.ruleFields with
      | none => []
      | some rf =>
        [("direction", GoValue.str rf.direction), ("protocol", GoValue.str rf.protocol),
         ("port_range", GoValue.str rf.portRange), ("remote_ip", GoValue.str rf.remoteIP)]
    some
      { id := id, name := "", type := ResourceTypeSecurityGroupRule, projectName := project
        parentID := parentID, parentName := parentName, properties := props }

/-- Per-row dispatch of Go `ExtractResourcesFromOsc` (truth.go): the switch on
the row's type tag, whose default case extracts a server. -/
def extractOscRow (row : OscRow) (projectName : String) : Option Resource :=
  if row.type = "security-group" then extractOscSecurityGroup row projectName
  else if row.type = "security-group-rule" then extractOscSecurityGroupRule row projectName
  else extractOscServer row projectName

/-- Go `ExtractResourcesFromOsc` (truth.go): nil output yields nil; otherwise
every data row is dispatched, appending the extracted resource when the row
has a usable ID. -/
def ExtractResourcesFromOsc (output : Option OscOutput) (projectName : String) :
    List Resource :=
  match output with
  | none => []
  | some o => o.data.flatMap (fun row => (extractOscRow row projectName).toList)

/-- C6 counterexample: a truth row whose top-level `id` is the reserved
placeholder "n/a" is extracted with "n/a" as its resource ID — the top-level
path does not treat the placeholder as absent. -/
theorem placeholder_top_level_used_as_value :
    (extractOscServer { id := "n/a", name := "x" } "proj").map Resource.id
      = some "n/a" := rfl

theorem getOscField_ne_placeholder (fields : List (String × String))
    (keys : List String) : getOscField fields keys ≠ "n/a" := by
  induction keys with
  | nil =>
    rw [getOscField]
    decide
  | cons key keys ih =>
    rw [getOscField]
    cases h : fields.lookup key with
    | none => exact ih
    | some v =>
      show (if v ≠ "" ∧ v ≠ "n/a" then v else getOscField fields keys) ≠ "n/a"
      by_cases hv : v ≠ "" ∧ v ≠ "n/a"
      · rw [if_pos hv]
        exact hv.2
      · rw [if_neg hv]
        exact ih

/-- C6 amended: the placeholder "n/a" is treated as absent in the legacy
alias lookup (`getOscField` skips it and never returns it), while a top-level
field is used as-is whenever non-empty — the alias list is consulted only
when the top-level field is empty — for every logical field (id, name,
project name, parent id, parent name, address). -/
theorem truth_extraction_field_preference :
    (∀ fields keys, getOscField fields keys ≠ "n/a")
    ∧ (∀ fields key keys, (fields.lookup key = none ∨ fields.lookup key = some ""
        ∨ fields.lookup key = some "n/a") →
        getOscField fields (key :: keys) = getOscField fields keys)
    ∧ (∀ fields key keys v, fields.lookup key = some v → v ≠ "" → v ≠ "n/a" →
        getOscField fields (key :: keys) = v)
    ∧ (∀ top fields aliases, (top ≠ "" → fieldWithFallback top fields aliases = top)
        ∧ (top = "" → fieldWithFallback top fields aliases = getOscField fields aliases))
    ∧ (∀ row proj r, extractOscServer row proj = some r →
        r.id = fieldWithFallback row.id row.fields ["Server ID", "server_id", "id"]
        ∧ r.name = fieldWithFallback row.name row.fields ["Server Name", "server_name", "name"]
        ∧ r.properties.lookup "ip_address"
            = some (GoValue.str (fieldWithFallback row.ipAddress row.fields
                ["IPv4 Address", "ipv4_address", "ip_address"]))
        ∧ (proj = "" → r.projectName
            = fieldWithFallback row.projectName row.fields
                ["Project Name", "project_name", "project"])
        ∧ (proj ≠ "" → r.projectName = proj))
    ∧ (∀ row proj r, extractOscSecurityGroupRule row proj = some r →
        r.parentID = fieldWithFallback row.parentID row.fields ["Parent ID", "parent_id"]
        ∧ r.parentName = fieldWithFallback row.parentName row.fields
            ["Parent Name", "parent_name", "Name"]) := by
  refine ⟨getOscField_ne_placeholder, ?_, ?_, ?_, ?_, ?_⟩
  · intro fields key keys h
    rw [getOscField]
    rcases h with h | h | h <;> rw [h] <;> simp
  · intro fields key keys v h hv1 hv2
    rw [getOscField, h]
    show (if v ≠ "" ∧ v ≠ "n/a" then v else getOscField fields keys) = v
    rw [if_pos ⟨hv1, hv2⟩]
  · intro top fields aliases
    constructor
    · intro h
      rw [fieldWithFallback, if_neg h]
    · intro h
      rw [fieldWithFallback, if_pos h]
  · intro row proj r h
    rw [extractOscServer] at h
    by_cases hid : fieldWithFallback row.id row.fields ["Server ID", "server_id", "id"] = ""
    · rw [if_pos hid] at h
      simp at h
    · rw [if_neg hid] at h
      obtain rfl := (Option.some.injEq _ _).mp h
      refine ⟨rfl, rfl, rfl, ?_, ?_⟩
      · intro hp
        simp [if_pos hp]
      · intro hp
        simp [if_neg hp]
  · intro row proj r h
    rw [extractOscSecurityGroupRule] at h
    by_cases hid : fieldWithFallback row.id row.fields ["ID", "id"] = ""
    · rw [if_pos hid] at h
      simp at h
    · rw [if_neg hid] at h
      obtain rfl := (Option.some.injEq _ _).mp h
      exact ⟨rfl, rfl⟩

theorem truth_extraction_field_preference_witness :
    getOscField [("Server ID", "n/a"), ("server_id", "srv-7")]
        ["Server ID", "server_id", "id"] = "srv-7"
    ∧ (extractOscServer { id := "top-3", fields := [("Server ID", "legacy-9")] } "").map
        Resource.id
      = some (fieldWithFallback "top-3" [("Server ID", "legacy-9")]
          ["Server ID", "server_id", "id"]) := by
  constructor
  · have h1 := truth_extraction_field_preference.2.1
      [("Server ID", "n/a"), ("server_id", "srv-7")] "Server ID" ["server_id", "id"]
      (by decide)
    have h2 := truth_extraction_field_preference.2.2.1
      [("Server ID", "n/a"), ("server_id", "srv-7")] "server_id" ["id"] "srv-7"
      (by decide) (by decide) (by decide)
    rw [h1, h2]
  · cases hx : extractOscServer { id := "top-3", fields := [("Server ID", "legacy-9")] } "" with
    | none => exact absurd hx (by decide)
    | some r =>
      have h := (truth_extraction_field_preference.2.2.2.2.1
        { id := "top-3", fields := [("Server ID", "legacy-9")] } "" r hx).1
      rw [Option.map_some']
      rw [h]

/-- C10: a truth row whose type tag is anything other than "security-group"
and "security-group-rule" — including an unrecognized tag such as "volume" —
is extracted as a server resource when it has a non-empty ID, rather than
skipped. -/
theorem unknown_tag_extracted_as_server (row : OscRow) (proj : String)
    (h1 : row.type ≠ "security-group") (h2 : row.type ≠ "security-group-rule") :
    extractOscRow row proj = extractOscServer row proj
    ∧ (∀ r, extractOscServer row proj = some r → r.type = ResourceTypeServer)
    ∧ (row.id ≠ "" →
        ∃ r, ExtractResourcesFromOsc (some { data := [row] }) proj = [r]
          ∧ r.type = ResourceTypeServer ∧ r.id = row.id) := by
  have hrow : extractOscRow row proj = extractOscServer row proj := by
    rw [extractOscRow, if_neg h1, if_neg h2]
  refine ⟨hrow, ?_, ?_⟩
  · intro r h
    rw [extractOscServer] at h
    by_cases hid : fieldWithFallback row.id row.fields ["Server ID", "server_id", "id"] = ""
    · rw [if_pos hid] at h
      simp at h
    · rw [if_neg hid] at h
      obtain rfl := (Option.some.injEq _ _).mp h
      rfl
  · intro hid
    have hfb : fieldWithFallback row.id row.fields ["Server ID", "server_id", "id"]
        = row.id := by
      rw [fieldWithFallback, if_neg hid]
    cases hx : extractOscServer row proj with
    | none =>
      rw [extractOscServer, hfb, if_neg hid] at hx
      simp at hx
    | some r =>
      have hx2 := hx
      rw [extractOscServer, hfb, if_neg hid] at hx2
      obtain rfl := (Option.some.injEq _ _).mp hx2
      have hlist : ExtractResourcesFromOsc (some { data := [row] }) proj
          = (extractOscServer row proj).toList := by
        rw [ExtractResourcesFromOsc]
        simp only [List.flatMap_cons, List.flatMap_nil, List.append_nil]
        rw [hrow]
      rw [hx] at hlist
      exact ⟨_, hlist, rfl, rfl⟩

theorem unknown_tag_extracted_as_server_witness :
    ∃ r, ExtractResourcesFromOsc
        (some { data := [{ type := "volume", id := "vol-1", name := "disk" }] }) "proj" = [r]
      ∧ r.type = ResourceTypeServer ∧ r.id = "vol-1" :=
  (unknown_tag_extracted_as_server { type := "volume", id := "vol-1", name := "disk" }
    "proj" (by decide) (by decide)).2.2 (by decide)

/-! ### Drift check report filter (cmd/driftcheck.go) -/

/-- The resource-filter switch inside Go `filterReport` (cmd/driftcheck.go):
"all" short-circuits the whole filter; otherwise only the three listed values
match, anything else matches nothing. -/
def matchResourceFilter (resourceFilter : String) (d : DiffResult) : Bool :=
  if resourceFilter = "all" then true
  else if resourceFilter = "servers" then d.resourceType == ResourceTypeServer
  else if resourceFilter = "secgrps" then d.resourceType == ResourceTypeSecurityGroup
  else if resourceFilter = "rules" then d.resourceType == ResourceTypeSecurityGroupRule
  else false

/-- The status-filter switch inside Go `filterReport` (cmd/driftcheck.go). -/
def matchStatusFilter (statusFilter : String) (d : DiffResult) : Bool :=
  if statusFilter = "all" then true
  else if statusFilter = "missing_in_truth" then d.status == StatusMissingInTruth
  else if statusFilter = "missing_in_state" then d.status == StatusMissingInState
  else if statusFilter = "name_changed" then d.status == StatusNameChanged
  else if statusFilter = "secgroups_changed" then d.status == StatusSecGroupChanged
  else if statusFilter = "rule_changed" then d.status == StatusRuleChanged
  else false

/-- Go `filterReport` (cmd/driftcheck.go): returns the report unchanged when
both filters are "all"; otherwise rebuilds a report keeping, per project, the
drifts matching both filters, adding the project only when any survive. -/
def filterReport (report : DriftReport) (resourceFilter statusFilter : String) : DriftReport :=
  if resourceFilter = "all" ∧ statusFilter = "all" then report
  else
    report.projects.foldl
      (fun acc project =>
        let fd := project.drifts.filter
          (fun d => matchResourceFilter resourceFilter d && matchStatusFilter statusFilter d)
        if fd.length > 0 then
          AddProject acc
            { projectName := project.projectName, drifts := fd
              stateCount := project.stateCount, truthCount := project.truthCount }
        else acc)
      NewDriftReport

/-- The multiset of DiffResults a report holds, in report order. -/
def reportDrifts (r : DriftReport) : List DiffResult :=
  r.projects.flatMap ProjectDrift.drifts

theorem reportDrifts_addProject (r : DriftReport) (p : ProjectDrift) :
    reportDrifts (AddProject r p) = reportDrifts r ++ p.drifts := by
  simp [reportDrifts, AddProject]

theorem filter_flatMap_drifts (ps : List ProjectDrift) (p : DiffResult → Bool) :
    (ps.flatMap ProjectDrift.drifts).filter p
      = ps.flatMap (fun project => project.drifts.filter p) := by
  induction ps with
  | nil => simp
  | cons q qs ih => simp [List.flatMap_cons, List.filter_append, ih]

theorem reportDrifts_filterFold (rf sf : String) (ps : List ProjectDrift)
    (acc : DriftReport) :
    reportDrifts (ps.foldl
      (fun acc project =>
        let fd := project.drifts.filter
          (fun d => matchResourceFilter rf d && matchStatusFilter sf d)
        if fd.length > 0 then
          AddProject acc
            { projectName := project.projectName, drifts := fd
              stateCount := project.stateCount, truthCount := project.truthCount }
        else acc)
      acc)
      = reportDrifts acc
        ++ ps.flatMap (fun project => project.drifts.filter
            (fun d => matchResourceFilter rf d && matchStatusFilter sf d)) := by
  induction ps generalizing acc with
  | nil => simp
  | cons q qs ih =>
    rw [List.foldl_cons, List.flatMap_cons]
    by_cases hq : (q.drifts.filter
        (fun d => matchResourceFilter rf d && matchStatusFilter sf d)).length > 0
    · simp only [if_pos hq, ih, reportDrifts_addProject]
      simp
    · have hnil : q.drifts.filter
          (fun d => matchResourceFilter rf d && matchStatusFilter sf d) = [] := by
        rcases Nat.eq_zero_or_pos (q.drifts.filter
          (fun d => matchResourceFilter rf d && matchStatusFilter sf d)).length with h | h
        · exact List.length_eq_zero.mp h
        · exact absurd h hq
      simp only [if_neg hq, ih, hnil]
      simp

/-- C7: the filtered report contains exactly the DiffResults of the original
report matching both filters ("all" matching everything), as a pure
re-partition of the already-computed results; unsupported status-filter
values match nothing, the supported ones being exactly missing_in_truth,
missing_in_state, name_changed, secgroups_changed, rule_changed and all. -/
theorem filter_report_exact (report : DriftReport) (rf sf : String) :
    reportDrifts (filterReport report rf sf)
        = (reportDrifts report).filter
            (fun d => matchResourceFilter rf d && matchStatusFilter sf d)
    ∧ (∀ d, matchResourceFilter "all" d = true ∧ matchStatusFilter "all" d = true)
    ∧ (∀ sf2 : String, ∀ d, sf2 ∉ (["missing_in_truth", "missing_in_state", "name_changed",
        "secgroups_changed", "rule_changed", "all"] : List String) →
        matchStatusFilter sf2 d = false)
    ∧ (∀ rf2 : String, ∀ d, rf2 ∉ (["servers", "secgrps", "rules", "all"] : List String) →
        matchResourceFilter rf2 d = false) := by
  refine ⟨?_, ?_, ?_, ?_⟩
  · rw [filterReport]
    by_cases hall : rf = "all" ∧ sf = "all"
    · rw [if_pos hall]
      have : ∀ d ∈ reportDrifts report,
          (matchResourceFilter rf d && matchStatusFilter sf d) = true := by
        intro d _
        simp [matchResourceFilter, matchStatusFilter, hall.1, hall.2]
      rw [List.filter_eq_self.mpr this]
    · rw [if_neg hall, reportDrifts_filterFold]
      simp only [reportDrifts, NewDriftReport]
      rw [filter_flatMap_drifts]
      simp
  · intro d
    constructor
    · simp [matchResourceFilter]
    · simp [matchStatusFilter]
  · intro sf2 d hmem
    simp only [List.mem_cons, List.not_mem_nil, or_false] at hmem
    push_neg at hmem
    obtain ⟨h1, h2, h3, h4, h5, h6⟩ := hmem
    simp [matchStatusFilter, h1, h2, h3, h4, h5, h6]
  · intro rf2 d hmem
    simp only [List.mem_cons, List.not_mem_nil, or_false] at hmem
    push_neg at hmem
    obtain ⟨h1, h2, h3, h4⟩ := hmem
    simp [matchResourceFilter, h1, h2, h3, h4]

def sampleDiffServer : DiffResult :=
  { resourceType := "server", resourceName := "n", resourceID := "s1",
    projectName := "p", status := "missing_in_truth", details := "" }

def sampleDiffSecgroup : DiffResult :=
  { resourceType := "security-group", resourceName := "g", resourceID := "g1",
    projectName := "p", status := "missing_in_state", details := "" }

def sampleReport : DriftReport :=
  { projects := [{ projectName := "p", drifts := [sampleDiffServer, sampleDiffSecgroup] }],
    summary := { totalProjects := 1, totalDrift := 2, byStatus := [], byType := [] } }

theorem filter_report_exact_witness :
    reportDrifts (filterReport sampleReport "servers" "all") = [sampleDiffServer]
    ∧ matchStatusFilter "bogus" sampleDiffServer = false := by
  constructor
  · rw [(filter_report_exact sampleReport "servers" "all").1]
    decide
  · exact (filter_report_exact NewDriftReport "all" "all").2.2.1 "bogus" sampleDiffServer
      (by decide)

/-! ### Project locator (internal/drift/loader.go) -/

/-- One entry of the base directory as Go `DiscoverProjects` observes it: its
name, whether it is a directory, and what `dirExists` returns for its
`state` and `truth` child paths. -/
structure DirEntry where
  name : String
  isDir : Bool
  stateIsDir : Bool
  truthIsDir : Bool
deriving DecidableEq, Repr

/-- The base path as Go `DiscoverProjects` observes it: `os.Stat` failure,
a base path that is not a directory, `os.ReadDir` failure, or a readable
directory with its entries. -/
inductive BaseDir where
  | statError
  | notDir
  | readDirError
  | readable (entries : List DirEntry)
deriving DecidableEq, Repr

/-- Go struct `ProjectDir` (loader.go).  `filepath.Join` is modelled as
joining with "/" (no path cleaning occurs on these inputs). -/
structure ProjectDir where
  name : String
  basePath : String
  statePath : String
  truthPath : String
deriving DecidableEq, Repr

/-- The `ProjectDir` record Go `DiscoverProjects` builds for one entry. -/
def projectDirFor (basePath : String) (e : DirEntry) : ProjectDir :=
  { name := e.name
    basePath := basePath ++ "/" ++ e.name
    statePath := basePath ++ "/" ++ e.name ++ "/state"
    truthPath := basePath ++ "/" ++ e.name ++ "/truth" }

/-- Go `DiscoverProjects` (loader.go) over the observed filesystem: abort on
an unreadable or non-directory root, skip non-directory entries and entries
with neither a `state` nor a `truth` child directory, and fail when nothing
qualifies. -/
def DiscoverProjects (basePath : String) (fs : BaseDir) :
    Except String (List ProjectDir) :=
  match fs with
  | .statError => .error "failed to access base path"
  | .notDir => .error ("base path is not a directory: " ++ basePath)
  | .readDirError => .error "failed to read base directory"
  | .readable entries =>
    let projects := entries.filterMap fun e =>
      if ¬ e.isDir then none
      else if ¬ e.stateIsDir ∧ ¬ e.truthIsDir then none
      else some (projectDirFor basePath e)
    if projects.length = 0 then
      .error ("no project directories found in " ++ basePath
        ++ " (expected directories with 'state' and/or 'truth' subdirectories)")
    else .ok projects

theorem discover_filterMap_eq (basePath : String) (entries : List DirEntry) :
    (entries.filterMap fun e =>
      if ¬ e.isDir then none
      else if ¬ e.stateIsDir ∧ ¬ e.truthIsDir then none
      else some (projectDirFor basePath e))
    = (entries.filter (fun e => e.isDir && (e.stateIsDir || e.truthIsDir))).map
        (projectDirFor basePath) := by
  induction entries with
  | nil => simp
  | cons e rest ih =>
    rw [List.filterMap_cons, List.filter_cons]
    by_cases h1 : e.isDir <;> by_cases h2 : e.stateIsDir <;> by_cases h3 : e.truthIsDir <;>
      simp [h1, h2, h3] <;> simpa using ih

/-- C8: project discovery returns exactly the immediate subdirectories that
contain a "state" and/or "truth" child directory (non-directories and
directories with neither are excluded), and it fails exactly when the root is
unreadable (stat error, not a directory, or unreadable listing) or when zero
subdirectories qualify. -/
theorem discover_projects_spec (basePath : String) (fs : BaseDir) :
    (∀ entries, fs = BaseDir.readable entries →
      ∀ res, DiscoverProjects basePath fs = .ok res →
        res = (entries.filter (fun e => e.isDir && (e.stateIsDir || e.truthIsDir))).map
          (projectDirFor basePath))
    ∧ ((∃ msg, DiscoverProjects basePath fs = .error msg) ↔
        (fs = .statError ∨ fs = .notDir ∨ fs = .readDirError
          ∨ ∃ entries, fs = .readable entries
              ∧ ∀ e ∈ entries, ¬ (e.isDir = true ∧ (e.stateIsDir = true
                  ∨ e.truthIsDir = true)))) := by
  constructor
  · rintro entries rfl res hres
    rw [DiscoverProjects] at hres
    simp only [discover_filterMap_eq] at hres
    split at hres
    · cases hres
    · exact (Except.ok.inj hres).symm
  · cases fs with
    | statError =>
      constructor
      · intro
        exact Or.inl rfl
      · intro
        exact ⟨"failed to access base path", rfl⟩
    | notDir =>
      constructor
      · intro
        exact Or.inr (Or.inl rfl)
      · intro
        exact ⟨"base path is not a directory: " ++ basePath, rfl⟩
    | readDirError =>
      constructor
      · intro
        exact Or.inr (Or.inr (Or.inl rfl))
      · intro
        exact ⟨"failed to read base directory", rfl⟩
    | readable entries =>
      rw [DiscoverProjects]
      simp only [discover_filterMap_eq]
      constructor
      · rintro ⟨msg, hmsg⟩
        split at hmsg
        · next hlen =>
          refine Or.inr (Or.inr (Or.inr ⟨entries, rfl, ?_⟩))
          have hnil : (entries.filter
              (fun e => e.isDir && (e.stateIsDir || e.truthIsDir))) = [] := by
            apply List.length_eq_zero.mp
            rw [← List.length_map (entries.filter
              (fun e => e.isDir && (e.stateIsDir || e.truthIsDir))) (projectDirFor basePath)]
            exact hlen
          intro e he
          intro ⟨hd, hst⟩
          have : e ∈ entries.filter (fun e => e.isDir && (e.stateIsDir || e.truthIsDir)) := by
            rw [List.mem_filter]
            refine ⟨he, ?_⟩
            simp [hd]
            rcases hst with h | h
            · exact Or.inl h
            · exact Or.inr h
          rw [hnil] at this
          simp at this
        · cases hmsg
      · rintro (h | h | h | ⟨entries2, he2, hall⟩)
        · cases h
        · cases h
        · cases h
        · obtain rfl : entries = entries2 := by cases he2; rfl
          have hnil : entries.filter (fun e => e.isDir && (e.stateIsDir || e.truthIsDir))
              = [] := by
            apply List.filter_eq_nil_iff.mpr
            intro e he
            have := hall e he
            simp only [Bool.and_eq_true, Bool.or_eq_true] at this ⊢
            tauto
          rw [if_pos (by simp [hnil])]
          exact ⟨_, rfl⟩

def sampleEntryProject : DirEntry :=
  { name := "p1", isDir := true, stateIsDir := true, truthIsDir := false }

def sampleEntryJunk : DirEntry :=
  { name := "junk", isDir := true, stateIsDir := false, truthIsDir := false }

theorem discover_projects_spec_witness :
    DiscoverProjects "/root" (BaseDir.readable [sampleEntryProject, sampleEntryJunk])
      = .ok [projectDirFor "/root" sampleEntryProject] := by
  cases hx : DiscoverProjects "/root" (BaseDir.readable [sampleEntryProject, sampleEntryJunk]) with
  | error msg =>
    have h := (discover_projects_spec "/root"
        (BaseDir.readable [sampleEntryProject, sampleEntryJunk])).2.mp ⟨msg, hx⟩
    rcases h with h | h | h | ⟨entries, he, hall⟩
    · cases h
    · cases h
    · cases h
    · obtain rfl : entries = [sampleEntryProject, sampleEntryJunk] :=
        (BaseDir.readable.inj he).symm
      exact absurd (by decide) (hall sampleEntryProject (by decide))
  | ok res =>
    have h := (discover_projects_spec "/root"
        (BaseDir.readable [sampleEntryProject, sampleEntryJunk])).1
      [sampleEntryProject, sampleEntryJunk] rfl res hx
    rw [h]
    congr 1

/-! ### State extractor (Terraform state parser) -/

/-- Go struct `TerraformResource` (state extractor).  `Values`
(`map[string]any`) is an association list of decoded JSON values. -/
structure TerraformResource where
  address : String := ""
  mode : String := ""
  type : String := ""
  name : String := ""
  providerName : String := ""
  values : List (String × GoValue) := []
deriving DecidableEq, Repr

/-- Go `getStringValue` (state extractor): the value when present and a
string, else "". -/
def getStringValue (m : List (String × GoValue)) (key : String) : String :=
  match m.lookup key with
  | some (GoValue.str s) => s
  | _ => ""

/-- Go `getIntValue` (state extractor): the value when present and numeric,
else 0 (JSON numbers are Go float64, modelled at their integer points, where
the `int(n)` conversion is the identity). -/
def getIntValue (m : List (String × GoValue)) (key : String) : Int :=
  match m.lookup key with
  | some (GoValue.num n) => n
  | _ => 0

/-- Go `extractSecurityGroupRule` (state extractor): rule fields plus the
synthesized "min:max" port-range property when `portMin > 0 || portMax > 0`. -/
def extractSecurityGroupRule (tfRes : TerraformResource) (projectName : String) :
    Option Resource :=
  let id := getStringValue tfRes.values "id"
  let secGroupID := getStringValue tfRes.values "security_group_id"
  if id = "" then none
  else
    let portMin := getIntValue tfRes.values "port_range_min"
    let portMax := getIntValue tfRes.values "port_range_max"
    let props : List (String × GoValue) :=
      [("direction", GoValue.str (getStringValue tfRes.values "direction")),
       ("ethertype", GoValue.str (getStringValue tfRes.values "ethertype")),
       ("protocol", GoValue.str (getStringValue tfRes.values "protocol")),
       ("remote_ip_prefix", GoValue.str (getStringValue tfRes.values "remote_ip_prefix")),
       ("remote_group_id", GoValue.str (getStringValue tfRes.values "remote_group_id"))]
      ++ (if portMin > 0 ∨ portMax > 0
          then [("port_range", GoValue.str (toString portMin ++ ":" ++ toString portMax))]
          else [])
    some
      { id := id, name := "", type := ResourceTypeSecurityGroupRule
        projectName := projectName, parentID := secGroupID, properties := props }

/-- C9 counterexample: a rule record with `port_range_min = -1` (non-zero)
and `port_range_max = 0` gets no "port_range" property, because the code
tests `> 0`, not "non-zero". -/
theorem port_range_negative_bound_dropped :
    getIntValue [("id", GoValue.str "r1"), ("port_range_min", GoValue.num (-1))]
        "port_range_min" ≠ 0
    ∧ (extractSecurityGroupRule
          { type := "openstack_networking_secgroup_rule_v2",
            values := [("id", GoValue.str "r1"),
                       ("port_range_min", GoValue.num (-1))] } "p").map
        (fun r => r.properties.lookup "port_range") = some none := by
  constructor
  · decide
  · rfl

/-- C9 amended: the state extractor sets the "port_range" property, with
value "min:max", exactly when either of `port_range_min` and
`port_range_max` is positive (greater than zero); when both bounds are zero
(or negative) no port-range property is set. -/
theorem port_range_property_iff_positive_bound (tfRes : TerraformResource)
    (proj : String) (r : Resource)
    (h : extractSecurityGroupRule tfRes proj = some r) :
    r.properties.lookup "port_range"
      = (if getIntValue tfRes.values "port_range_min" > 0
            ∨ getIntValue tfRes.values "port_range_max" > 0
         then some (GoValue.str (toString (getIntValue tfRes.values "port_range_min")
             ++ ":" ++ toString (getIntValue tfRes.values "port_range_max")))
         else none) := by
  rw [extractSecurityGroupRule] at h
  by_cases hid : getStringValue tfRes.values "id" = ""
  · rw [if_pos hid] at h
    cases h
  · rw [if_neg hid] at h
    obtain rfl := (Option.some.injEq _ _).mp h
    by_cases hp : getIntValue tfRes.values "port_range_min" > 0
        ∨ getIntValue tfRes.values "port_range_max" > 0
    · rw [if_pos hp, if_pos hp]
      rfl
    · rw [if_neg hp, if_neg hp]
      rfl

theorem port_range_property_iff_positive_bound_witness :
    (extractSecurityGroupRule
        { type := "openstack_networking_secgroup_rule_v2",
          values := [("id", GoValue.str "r1"), ("port_range_min", GoValue.num 22),
                     ("port_range_max", GoValue.num 443)] } "p").map
      (fun r => r.properties.lookup "port_range")
      = some (some (GoValue.str "22:443")) := by
  cases hx : extractSecurityGroupRule
      { type := "openstack_networking_secgroup_rule_v2",
        values := [("id", GoValue.str "r1"), ("port_range_min", GoValue.num 22),
                   ("port_range_max", GoValue.num 443)] } "p" with
  | none => exact absurd hx (by decide)
  | some r =>
    have h := port_range_property_iff_positive_bound
      { type := "openstack_networking_secgroup_rule_v2",
        values := [("id", GoValue.str "r1"), ("port_range_min", GoValue.num 22),
                   ("port_range_max", GoValue.num 443)] } "p" r hx
    rw [Option.map_some']
    rw [h]
    decide

end Osc
